import Mathlib

/-!
Shallow embedding of the worker pool in `src/apps/api/src/workers/pool.ts`.

The pool owns a map of worker entries and a task queue, and is driven by
events: `execute` calls, worker completion messages, worker-level errors,
worker exits, task-timeout timer firings, the periodic idle sweep, and the
two phases of `shutdown`.  JavaScript `Map` iteration order is insertion
order and keys are never reused (`Date.now() + Math.random()`), so the
worker map is embedded as an association list in insertion order whose
entries are never removed; `Map` membership is a `live` flag on the entry.
This also lets the timeout callback, which captures the `WorkerInfo`
object itself, keep writing to a worker after `workers.delete` — exactly
as in the source.  Fresh task and worker identifiers are drawn from
counters.  Promise `resolve`/`reject` calls are embedded as emitted
`Settlement` values.  Timestamps (`Date.now()`) are passed in as a `now`
argument to each operation that reads the clock.
-/

namespace TailPool

/-- One entry of the pool's worker map (`WorkerInfo` in the source), plus
the `live` flag standing for membership in `this.workers`. -/
structure WorkerInfo where
  live : Bool
  busy : Bool
  currentTask : Option Nat
  tasksCompleted : Nat
  errors : Nat
  lastActivity : Nat
deriving DecidableEq, Repr

/-- A queued task (`WorkerTask` in the source); `resolve`/`reject` are
embedded as emitted settlements, not stored functions. -/
structure Task where
  id : Nat
  type : String
  data : String
  timeout : Option Nat
  priority : Option Int
deriving DecidableEq, Repr

/-- The pool's immutable configuration after constructor defaulting. -/
structure Config where
  maxWorkers : Nat
  minWorkers : Nat
  idleTimeout : Nat
  taskTimeout : Nat
deriving DecidableEq, Repr

/-- The constructor's option bag; `none` stands for an omitted field. -/
structure PoolOptions where
  maxWorkers : Option Nat
  minWorkers : Option Nat
  idleTimeout : Option Nat
  taskTimeout : Option Nat
deriving DecidableEq, Repr

/-- JavaScript `x || d` on a number: `0` (and absence) falls back to `d`. -/
def natOr (o : Option Nat) (d : Nat) : Nat :=
  match o with
  | some v => if v = 0 then d else v
  | none => d

/-- The constructor's defaulting of the four numeric options:
`maxWorkers || cpus().length`,
`minWorkers || Math.max(1, Math.floor(cpus().length / 2))`,
`idleTimeout || 30000`, `taskTimeout || 60000`. -/
def resolveConfig (opts : PoolOptions) (numCpus : Nat) : Config :=
  { maxWorkers := natOr opts.maxWorkers numCpus
    minWorkers := natOr opts.minWorkers (max 1 (numCpus / 2))
    idleTimeout := natOr opts.idleTimeout 30000
    taskTimeout := natOr opts.taskTimeout 60000 }

/-- The mutable pool state.  `workers` lists every worker ever spawned in
insertion order; an entry is in the JavaScript `Map` iff its `live` flag
is set.  `nextWorkerId` / `nextTaskId` embed fresh-id generation. -/
structure PoolState where
  workers : List (Nat × WorkerInfo)
  taskQueue : List Task
  isShuttingDown : Bool
  nextWorkerId : Nat
  nextTaskId : Nat
deriving DecidableEq, Repr

/-- How a task's promise was settled. -/
inductive Outcome where
  | resolved (data : Option String)
  | rejectedTaskError (msg : String)
  | rejectedTimeout
  | rejectedWorkerCrash
  | rejectedShutdown
deriving DecidableEq, Repr

/-- One `resolve`/`reject` call on a task's promise. -/
structure Settlement where
  taskId : Nat
  outcome : Outcome
deriving DecidableEq, Repr

/-- A worker's completion message `{taskId, success, data?, error?}`. -/
structure WorkerResult where
  taskId : Nat
  success : Bool
  data : Option String
  error : Option String
deriving DecidableEq, Repr

/-- `t.priority || 0` (for integer priorities `|| 0` only maps `0` and
absence to `0`, which `getD` does as well). -/
def taskPri (t : Task) : Int := t.priority.getD 0

/-- `this.workers.size`: the number of live entries. -/
def liveCount (ws : List (Nat × WorkerInfo)) : Nat :=
  ws.countP (fun w => w.2.live)

/-- Live workers whose `busy` flag is set (as counted by `getStats`). -/
def busyCount (ws : List (Nat × WorkerInfo)) : Nat :=
  ws.countP (fun w => w.2.live && w.2.busy)

/-- Access to the `WorkerInfo` object with the given id, live or not
(the timeout callback holds such a reference after `workers.delete`). -/
def lookupObj (wid : Nat) : List (Nat × WorkerInfo) → Option WorkerInfo
  | [] => none
  | (i, info) :: rest => if i = wid then some info else lookupObj wid rest

/-- `this.workers.get(workerId)`: only live entries are in the `Map`. -/
def lookupLive (wid : Nat) (ws : List (Nat × WorkerInfo)) : Option WorkerInfo :=
  match lookupObj wid ws with
  | some info => if info.live then some info else none
  | none => none

/-- Mutate the `WorkerInfo` object with the given id in place. -/
def updateObj (wid : Nat) (f : WorkerInfo → WorkerInfo) :
    List (Nat × WorkerInfo) → List (Nat × WorkerInfo)
  | [] => []
  | (i, info) :: rest =>
    if i = wid then (i, f info) :: rest else (i, info) :: updateObj wid f rest

/-- `spawnWorker`: create a fresh entry, register it in the map.
A fresh worker is live, idle, with `lastActivity = Date.now()`. -/
def spawnWorker (now : Nat) (s : PoolState) : PoolState :=
  { s with
    workers := s.workers ++ [(s.nextWorkerId, ⟨true, false, none, 0, 0, now⟩)]
    nextWorkerId := s.nextWorkerId + 1 }

/-- `getAvailableWorker`: the first live, non-busy entry in map order. -/
def getAvailableWorker : List (Nat × WorkerInfo) → Option Nat
  | [] => none
  | (i, info) :: rest =>
    if info.live && !info.busy then some i else getAvailableWorker rest

/-- Whether some live worker's `currentTask` field names `tid`
(the filter inside `processQueue` skips such tasks). -/
def isAssigned (ws : List (Nat × WorkerInfo)) (tid : Nat) : Bool :=
  ws.any (fun w => w.2.live && w.2.currentTask == some tid)

/-- Stable insertion by descending priority: the new task goes after
every task of priority `≥` its own. -/
def insertTask (t : Task) : List Task → List Task
  | [] => [t]
  | h :: rest =>
    if taskPri h < taskPri t then t :: h :: rest else h :: insertTask t rest

/-- `taskQueue.sort((a, b) => (b.priority || 0) - (a.priority || 0))`:
the unique stable sort by descending priority (ECMAScript `Array.sort`
is stable), computed as a left-to-right stable insertion sort. -/
def sortByPriority (l : List Task) : List Task :=
  l.foldl (fun acc t => insertTask t acc) []

/-- `findIndex` + `splice(i, 1)`: remove the first task with the given
id, returning it together with the remaining queue. -/
def extractTask (tid : Nat) : List Task → Option (Task × List Task)
  | [] => none
  | t :: rest =>
    if t.id = tid then some (t, rest)
    else
      match extractTask tid rest with
      | some (x, l) => some (x, t :: l)
      | none => none

/-- Mark a worker busy on `task.id` with fresh `lastActivity`. -/
def assignTask (now : Nat) (wid : Nat) (tid : Nat)
    (ws : List (Nat × WorkerInfo)) : List (Nat × WorkerInfo) :=
  updateObj wid
    (fun info => { info with busy := true, currentTask := some tid, lastActivity := now }) ws

/-- The dispatch loop of `processQueue` over the pre-computed pending
list: take an available worker, else spawn one if strictly under
`maxWorkers` and look again; on success assign and continue, otherwise
`break` (the remaining pending tasks stay queued). -/
def dispatchLoop (cfg : Config) (now : Nat) : List Task → PoolState → PoolState
  | [], s => s
  | t :: rest, s =>
    match getAvailableWorker s.workers with
    | some wid =>
      dispatchLoop cfg now rest { s with workers := assignTask now wid t.id s.workers }
    | none =>
      if liveCount s.workers < cfg.maxWorkers then
        let s1 := spawnWorker now s
        match getAvailableWorker s1.workers with
        | some wid =>
          dispatchLoop cfg now rest { s1 with workers := assignTask now wid t.id s1.workers }
        | none => s1
      else s

/-- `processQueue`: return early on an empty queue or during shutdown;
otherwise stably sort the queue by descending priority, filter out tasks
already assigned to a live worker, and run the dispatch loop.  Note the
queue itself only gets reordered: assignment does not dequeue. -/
def processQueue (cfg : Config) (now : Nat) (s : PoolState) : PoolState :=
  if s.taskQueue = [] then s
  else if s.isShuttingDown then s
  else
    let sorted := sortByPriority s.taskQueue
    let s1 := { s with taskQueue := sorted }
    let pending := sorted.filter (fun t => !(isAssigned s1.workers t.id))
    dispatchLoop cfg now pending s1

/-- JavaScript `result.error || "Task failed"`: absent or empty string
falls back to the default message. -/
def strOr (o : Option String) (d : String) : String :=
  match o with
  | some v => if v = "" then d else v
  | none => d

/-- `handleWorkerMessage`: ignore messages from ids not in the map;
otherwise reset the worker to idle and bump its counters, then look for
the task by id — if it is gone (e.g. removed by a timeout) drop the
message, else dequeue it, settle its promise, and re-run dispatch. -/
def handleWorkerMessage (cfg : Config) (now : Nat) (wid : Nat) (res : WorkerResult)
    (s : PoolState) : PoolState × List Settlement :=
  match lookupLive wid s.workers with
  | none => (s, [])
  | some _ =>
    let ws := updateObj wid
      (fun info =>
        { info with busy := false, currentTask := none, lastActivity := now,
                    tasksCompleted := info.tasksCompleted + 1 }) s.workers
    let s1 := { s with workers := ws }
    match extractTask res.taskId s1.taskQueue with
    | none => (s1, [])
    | some (task, rest) =>
      let st :=
        if res.success then Settlement.mk task.id (Outcome.resolved res.data)
        else Settlement.mk task.id (Outcome.rejectedTaskError (strOr res.error "Task failed"))
      (processQueue cfg now { s1 with taskQueue := rest }, [st])

/-- Terminate a worker (delete it from the map), then spawn a
replacement iff the pool is not shutting down and the live set fell
under `minWorkers` — the common tail of the `error` path and the whole
of the `exit` listener. -/
def killAndRespawn (cfg : Config) (now : Nat) (wid : Nat) (s : PoolState) : PoolState :=
  if !s.isShuttingDown &&
      decide (liveCount (updateObj wid (fun i => { i with live := false }) s.workers) < cfg.minWorkers)
  then spawnWorker now { s with workers := updateObj wid (fun i => { i with live := false }) s.workers }
  else { s with workers := updateObj wid (fun i => { i with live := false }) s.workers }

/-- `handleWorkerError` up to (but not including) its final
`processQueue` call: reject the worker's current task (if still queued)
with the crash error, terminate and delete the worker, and respawn one
iff the pool is not shutting down and the live set fell under
`minWorkers`. -/
def handleWorkerErrorCore (cfg : Config) (now : Nat) (wid : Nat)
    (s : PoolState) : PoolState × List Settlement :=
  match lookupLive wid s.workers with
  | none => (s, [])
  | some info =>
    match info.currentTask with
    | none => (killAndRespawn cfg now wid s, [])
    | some tid =>
      match extractTask tid s.taskQueue with
      | none => (killAndRespawn cfg now wid s, [])
      | some (task, rest) =>
        (killAndRespawn cfg now wid { s with taskQueue := rest },
         [Settlement.mk task.id Outcome.rejectedWorkerCrash])

/-- The worker's `error` listener: bump the captured object's `errors`
counter, run `handleWorkerError`, which ends in `processQueue`. -/
def workerErrorStep (cfg : Config) (now : Nat) (wid : Nat)
    (s : PoolState) : PoolState × List Settlement :=
  let s0 := { s with workers := updateObj wid (fun i => { i with errors := i.errors + 1 }) s.workers }
  let (s1, sts) := handleWorkerErrorCore cfg now wid s0
  (processQueue cfg now s1, sts)

/-- The worker's `exit` listener: delete the entry from the map, then
respawn iff not shutting down and under `minWorkers`. -/
def workerExitStep (cfg : Config) (now : Nat) (wid : Nat) (s : PoolState) : PoolState :=
  killAndRespawn cfg now wid s

/-- The `setTimeout` callback armed at assignment time.  It captures the
`WorkerInfo` object and the task id: if the object's `currentTask` still
names the task, remove the task from the queue (when still there) and
reject it with the timeout error, then reset the object to idle. -/
def timerFireStep (wid : Nat) (tid : Nat) (s : PoolState) : PoolState × List Settlement :=
  match lookupObj wid s.workers with
  | none => (s, [])
  | some info =>
    if info.currentTask = some tid then
      let (s1, sts) :=
        match extractTask tid s.taskQueue with
        | none => (s, ([] : List Settlement))
        | some (task, rest) =>
          ({ s with taskQueue := rest }, [Settlement.mk task.id Outcome.rejectedTimeout])
      ({ s1 with workers := updateObj wid (fun i => { i with busy := false, currentTask := none }) s1.workers },
       sts)
    else (s, [])

/-- `now - info.lastActivity > this.idleTimeout`, over the integers. -/
def staleCheck (cfg : Config) (now : Nat) (info : WorkerInfo) : Bool :=
  decide ((cfg.idleTimeout : Int) < (now : Int) - (info.lastActivity : Int))

/-- The body of `cleanupIdleWorkers`' iteration: walk the map in
insertion order, deleting a live entry when it is idle, the map's
current size strictly exceeds `minWorkers`, and it is stale.  `accLive`
counts live entries already kept, so the current size at each entry is
`accLive + 1 + liveCount rest`. -/
def cleanupAux (cfg : Config) (now : Nat) (accLive : Nat) :
    List (Nat × WorkerInfo) → List (Nat × WorkerInfo)
  | [] => []
  | (i, info) :: rest =>
    if info.live then
      if !info.busy && decide (cfg.minWorkers < accLive + 1 + liveCount rest)
          && staleCheck cfg now info then
        (i, { info with live := false }) :: cleanupAux cfg now accLive rest
      else (i, info) :: cleanupAux cfg now (accLive + 1) rest
    else (i, info) :: cleanupAux cfg now accLive rest

/-- `cleanupIdleWorkers`: the periodic idle sweep. -/
def cleanupIdleWorkers (cfg : Config) (now : Nat) (s : PoolState) : PoolState :=
  { s with workers := cleanupAux cfg now 0 s.workers }

/-- The error thrown by `execute` during shutdown. -/
inductive ExecError where
  | poolShuttingDown
deriving DecidableEq, Repr

/-- `execute`: throw `PoolShuttingDown` during shutdown; otherwise build
a task with a fresh id, push it onto the queue, and run dispatch.  The
returned task id identifies the caller's pending promise. -/
def execute (cfg : Config) (now : Nat) (type data : String) (timeout : Option Nat)
    (priority : Option Int) (s : PoolState) : Except ExecError Nat × PoolState :=
  if s.isShuttingDown then (Except.error ExecError.poolShuttingDown, s)
  else
    let task : Task := ⟨s.nextTaskId, type, data, timeout, priority⟩
    let s1 := { s with taskQueue := s.taskQueue ++ [task], nextTaskId := s.nextTaskId + 1 }
    (Except.ok task.id, processQueue cfg now s1)

/-- The first statement of `shutdown`: flip the shutting-down flag. -/
def shutdownBeginStep (s : PoolState) : PoolState :=
  { s with isShuttingDown := true }

/-- The tail of `shutdown`, after the polling loop ends: reject every
task still queued with the shutdown error, clear the queue, terminate
every worker and clear the map. -/
def shutdownFinalizeStep (s : PoolState) : PoolState × List Settlement :=
  ({ s with
      taskQueue := []
      workers := s.workers.map (fun w => (w.1, { w.2 with live := false })) },
   s.taskQueue.map (fun t => Settlement.mk t.id Outcome.rejectedShutdown))

/-- The snapshot returned by `getStats`. -/
structure Stats where
  totalWorkers : Nat
  busyWorkers : Nat
  idleWorkers : Nat
  queuedTasks : Nat
  totalTasksCompleted : Nat
  totalErrors : Nat
deriving DecidableEq, Repr

/-- `getStats`: counters over the live worker map plus the queue length. -/
def getStats (s : PoolState) : Stats :=
  { totalWorkers := liveCount s.workers
    busyWorkers := busyCount s.workers
    idleWorkers := liveCount s.workers - busyCount s.workers
    queuedTasks := s.taskQueue.length
    totalTasksCompleted :=
      (s.workers.filter (fun w => w.2.live)).foldl (fun acc w => acc + w.2.tasksCompleted) 0
    totalErrors :=
      (s.workers.filter (fun w => w.2.live)).foldl (fun acc w => acc + w.2.errors) 0 }

/-- An event the pool reacts to.  Each event carries the `Date.now()`
value observed while handling it.  Traces over arbitrary event lists
over-approximate the real single-threaded interleavings, which is sound
for the safety properties proved below. -/
inductive Event where
  | exec (type data : String) (timeout : Option Nat) (priority : Option Int) (now : Nat)
  | message (wid : Nat) (res : WorkerResult) (now : Nat)
  | workerError (wid : Nat) (now : Nat)
  | workerExit (wid : Nat) (now : Nat)
  | timerFire (wid : Nat) (tid : Nat)
  | idleSweep (now : Nat)
  | shutdownBegin
  | shutdownFinalize
deriving DecidableEq, Repr

/-- One event-handling step: the next state and the settlements the
handler performed. -/
def step (cfg : Config) (s : PoolState) : Event → PoolState × List Settlement
  | Event.exec ty da tmo pri now => ((execute cfg now ty da tmo pri s).2, [])
  | Event.message wid res now => handleWorkerMessage cfg now wid res s
  | Event.workerError wid now => workerErrorStep cfg now wid s
  | Event.workerExit wid now => (workerExitStep cfg now wid s, [])
  | Event.timerFire wid tid => timerFireStep wid tid s
  | Event.idleSweep now => (cleanupIdleWorkers cfg now s, [])
  | Event.shutdownBegin => (shutdownBeginStep s, [])
  | Event.shutdownFinalize => shutdownFinalizeStep s

/-- Run a list of events, collecting all settlements. -/
def run (cfg : Config) (s : PoolState) : List Event → PoolState × List Settlement
  | [] => (s, [])
  | e :: rest =>
    let p := step cfg s e
    let q := run cfg p.1 rest
    (q.1, p.2 ++ q.2)

/-- The constructor's start-up loop spawning `minWorkers` workers. -/
def spawnN (now : Nat) : Nat → PoolState → PoolState
  | 0, s => s
  | n + 1, s => spawnN now n (spawnWorker now s)

/-- The pool state right after the constructor ran. -/
def initState (cfg : Config) (now : Nat) : PoolState :=
  spawnN now cfg.minWorkers
    { workers := [], taskQueue := [], isShuttingDown := false,
      nextWorkerId := 0, nextTaskId := 0 }

/-- The ids of the tasks currently in the queue. -/
def queueIds (s : PoolState) : List Nat := s.taskQueue.map Task.id

/-- How many of the given settlements concern task `i`. -/
def countSettle (i : Nat) (sts : List Settlement) : Nat :=
  sts.countP (fun st => st.taskId = i)

/-- Queue well-formedness: task ids are distinct and below the id
counter, and equal-priority tasks sit in submission (= id) order. -/
def WFtasks (q : List Task) (nextId : Nat) : Prop :=
  q.Pairwise (fun a b => a.id ≠ b.id) ∧ (∀ t ∈ q, t.id < nextId) ∧
  q.Pairwise (fun a b => taskPri a = taskPri b → a.id < b.id)

/-- Worker-map well-formedness: keys are distinct and below the
worker-id counter. -/
def WFworkers (ws : List (Nat × WorkerInfo)) (nextW : Nat) : Prop :=
  ws.Pairwise (fun a b => a.1 ≠ b.1) ∧ (∀ w ∈ ws, w.1 < nextW)

/-- Well-formedness of a pool state; holds in every reachable state. -/
def WF (s : PoolState) : Prop :=
  WFtasks s.taskQueue s.nextTaskId ∧ WFworkers s.workers s.nextWorkerId

instance (q : List Task) (n : Nat) : Decidable (WFtasks q n) := by
  unfold WFtasks; infer_instance

instance (ws : List (Nat × WorkerInfo)) (n : Nat) : Decidable (WFworkers ws n) := by
  unfold WFworkers; infer_instance

instance (s : PoolState) : Decidable (WF s) := by
  unfold WF; infer_instance

/-- The dispatch order: strictly higher priority first, ties by
submission order (smaller task id first). -/
def taskBefore (a b : Task) : Prop :=
  taskPri b < taskPri a ∨ (taskPri b = taskPri a ∧ a.id < b.id)

instance (a b : Task) : Decidable (taskBefore a b) := by
  unfold taskBefore; infer_instance

/-- A queue that is either untouched or stably re-sorted — the only two
things a handler does to the queue besides enqueueing and removing. -/
def SortedOrEq (base q : List Task) : Prop :=
  q = base ∨ q = sortByPriority base

/-- Step effect: the handler left the queue alone (up to the stable
re-sort) and settled nothing. -/
def QueuePreserved (s s' : PoolState) (sts : List Settlement) : Prop :=
  SortedOrEq s.taskQueue s'.taskQueue ∧ sts = [] ∧ s'.nextTaskId = s.nextTaskId

/-- Step effect: the handler appended one fresh-id task and settled
nothing (an `execute` call). -/
def Enqueued (s s' : PoolState) (sts : List Settlement) : Prop :=
  ∃ t : Task, t.id = s.nextTaskId ∧
    SortedOrEq (s.taskQueue ++ [t]) s'.taskQueue ∧ sts = [] ∧
    s'.nextTaskId = s.nextTaskId + 1

/-- Step effect: the handler removed exactly one task from the queue
and settled exactly that task. -/
def SettledOne (s s' : PoolState) (sts : List Settlement) : Prop :=
  ∃ (t : Task) (o : Outcome) (l1 l2 : List Task),
    s.taskQueue = l1 ++ t :: l2 ∧ SortedOrEq (l1 ++ l2) s'.taskQueue ∧
    sts = [Settlement.mk t.id o] ∧ s'.nextTaskId = s.nextTaskId

/-- Step effect: the handler rejected every queued task and cleared the
queue (the tail of `shutdown`). -/
def SettledAll (s s' : PoolState) (sts : List Settlement) : Prop :=
  sts = s.taskQueue.map (fun t => Settlement.mk t.id Outcome.rejectedShutdown) ∧
  s'.taskQueue = [] ∧ s'.nextTaskId = s.nextTaskId

/-- The settlement budget of task id `i`: one if `i` is queued, plus
one if `i` has not yet been used as a task id. -/
def budget (i : Nat) (s : PoolState) : Nat :=
  (if i ∈ queueIds s then 1 else 0) + (if s.nextTaskId ≤ i then 1 else 0)

/-- A small concrete pool used to exercise the crash handler: one busy
worker holding the single queued task. -/
def crashDemoState : PoolState :=
  { workers := [(0, ⟨true, true, some 0, 0, 0, 0⟩)]
    taskQueue := [⟨0, "a", "x", none, none⟩]
    isShuttingDown := false
    nextWorkerId := 1
    nextTaskId := 1 }

/-- The configuration paired with `crashDemoState`. -/
def crashDemoCfg : Config := ⟨2, 1, 30000, 60000⟩

/-! ### Lemmas about the queue primitives -/

theorem extractTask_none_iff (tid : Nat) (l : List Task) :
    extractTask tid l = none ↔ tid ∉ l.map Task.id := by
  induction l with
  | nil => simp [extractTask]
  | cons t rest ih =>
    cases hrec : extractTask tid rest with
    | none =>
      by_cases h : t.id = tid
      · subst h; simp [extractTask]
      · have h2 := ih.mp hrec
        simp only [extractTask, if_neg h, hrec, List.map_cons, List.mem_cons]
        constructor
        · intro _ hc
          rcases hc with hc | hc
          · exact h hc.symm
          · exact h2 hc
        · intro _; trivial
    | some p =>
      have h2 : tid ∈ rest.map Task.id := by
        by_contra hc
        rw [← ih] at hc
        rw [hc] at hrec
        exact Option.noConfusion hrec
      by_cases h : t.id = tid
      · subst h; simp [extractTask]
      · simp only [extractTask, if_neg h, hrec, List.map_cons, List.mem_cons]
        constructor
        · intro hc; exact Option.noConfusion hc
        · intro hc; exact absurd (Or.inr h2) hc

theorem extractTask_some_spec {tid : Nat} {l : List Task} {t : Task} {rest : List Task}
    (h : extractTask tid l = some (t, rest)) :
    t.id = tid ∧ ∃ l1 l2, l = l1 ++ t :: l2 ∧ rest = l1 ++ l2 := by
  induction l generalizing t rest with
  | nil => exact Option.noConfusion h
  | cons a l' ih =>
    by_cases ha : a.id = tid
    · simp only [extractTask, if_pos ha, Option.some.injEq, Prod.mk.injEq] at h
      obtain ⟨h1, h2⟩ := h
      subst h1; subst h2
      exact ⟨ha, [], l', rfl, rfl⟩
    · simp only [extractTask, if_neg ha] at h
      cases hrec : extractTask tid l' with
      | none => rw [hrec] at h; exact Option.noConfusion h
      | some p =>
        obtain ⟨x, l2⟩ := p
        rw [hrec] at h
        simp only [Option.some.injEq, Prod.mk.injEq] at h
        obtain ⟨hx, hr⟩ := h
        subst hx
        obtain ⟨hid, l1', l2', hl, hrest⟩ := ih hrec
        exact ⟨hid, a :: l1', l2', by rw [hl]; rfl, by rw [← hr, hrest]; rfl⟩

theorem insertTask_perm (t : Task) (l : List Task) : (insertTask t l).Perm (t :: l) := by
  induction l with
  | nil => simp [insertTask]
  | cons h rest ih =>
    by_cases hc : taskPri h < taskPri t
    · simp [insertTask, hc]
    · simp only [insertTask, if_neg hc]
      exact (ih.cons h).trans (List.Perm.swap t h rest)

theorem mem_insertTask {x t : Task} {l : List Task} :
    x ∈ insertTask t l ↔ x = t ∨ x ∈ l := by
  rw [(insertTask_perm t l).mem_iff, List.mem_cons]

theorem sortFold_perm (l acc : List Task) :
    (l.foldl (fun a t => insertTask t a) acc).Perm (l ++ acc) := by
  induction l generalizing acc with
  | nil => simp
  | cons t rest ih =>
    simp only [List.foldl_cons, List.cons_append]
    exact ((ih (insertTask t acc)).trans
      (List.Perm.append_left rest (insertTask_perm t acc))).trans List.perm_middle

theorem sortByPriority_perm (l : List Task) : (sortByPriority l).Perm l := by
  simpa using sortFold_perm l []

theorem pairwise_insertTask {t : Task} {l : List Task}
    (hl : l.Pairwise taskBefore)
    (ht : ∀ x ∈ l, taskPri x = taskPri t → x.id < t.id) :
    (insertTask t l).Pairwise taskBefore := by
  induction l with
  | nil => simp [insertTask]
  | cons h rest ih =>
    rcases List.pairwise_cons.mp hl with ⟨hh, hrest⟩
    by_cases hc : taskPri h < taskPri t
    · simp only [insertTask, if_pos hc]
      refine List.pairwise_cons.mpr ⟨?_, hl⟩
      intro y hy
      rcases List.mem_cons.mp hy with rfl | hy'
      · exact Or.inl hc
      · rcases hh y hy' with h1 | ⟨h1, _⟩
        · exact Or.inl (lt_trans h1 hc)
        · exact Or.inl (h1 ▸ hc)
    · simp only [insertTask, if_neg hc]
      refine List.pairwise_cons.mpr
        ⟨?_, ih hrest (fun x hx he => ht x (List.mem_cons_of_mem _ hx) he)⟩
      intro y hy
      rcases mem_insertTask.mp hy with rfl | hy'
      · rcases lt_or_eq_of_le (not_lt.mp hc) with h1 | h1
        · exact Or.inl h1
        · exact Or.inr ⟨h1, ht h (List.mem_cons_self _ _) h1.symm⟩
      · exact hh y hy'

theorem sortFold_pairwise (l : List Task) :
    ∀ acc : List Task, acc.Pairwise taskBefore →
    l.Pairwise (fun a b => taskPri a = taskPri b → a.id < b.id) →
    (∀ x ∈ acc, ∀ y ∈ l, taskPri x = taskPri y → x.id < y.id) →
    (l.foldl (fun a t => insertTask t a) acc).Pairwise taskBefore := by
  induction l with
  | nil => intro acc hacc _ _; simpa
  | cons t rest ih =>
    intro acc hacc hl hcross
    rcases List.pairwise_cons.mp hl with ⟨hhead, hrest⟩
    simp only [List.foldl_cons]
    refine ih (insertTask t acc)
      (pairwise_insertTask hacc (fun x hx he => hcross x hx t (List.mem_cons_self _ _) he))
      hrest ?_
    intro x hx y hy he
    rcases mem_insertTask.mp hx with rfl | hx'
    · exact hhead y hy he
    · exact hcross x hx' y (List.mem_cons_of_mem _ hy) he

theorem sortByPriority_pairwise {l : List Task}
    (hl : l.Pairwise (fun a b => taskPri a = taskPri b → a.id < b.id)) :
    (sortByPriority l).Pairwise taskBefore := by
  refine sortFold_pairwise l [] (by simp) hl (by simp)

theorem taskBefore_eqPri {a b : Task} (h : taskBefore a b) :
    taskPri a = taskPri b → a.id < b.id := by
  intro he
  rcases h with h1 | ⟨_, h2⟩
  · exact absurd (he ▸ h1) (lt_irrefl _)
  · exact h2

theorem WFtasks_sort {q : List Task} {n : Nat} (h : WFtasks q n) :
    WFtasks (sortByPriority q) n := by
  obtain ⟨h1, h2, h3⟩ := h
  refine ⟨?_, ?_, ?_⟩
  · exact ((sortByPriority_perm q).pairwise_iff
      (by intro a b hab; exact Ne.symm hab)).mpr h1
  · intro t ht
    exact h2 t ((sortByPriority_perm q).mem_iff.mp ht)
  · exact (sortByPriority_pairwise h3).imp taskBefore_eqPri

theorem WFtasks_sortOrEq {base q : List Task} {n : Nat}
    (h : WFtasks base n) (hs : SortedOrEq base q) : WFtasks q n := by
  rcases hs with rfl | rfl
  · exact h
  · exact WFtasks_sort h

theorem WFtasks_remove {l1 l2 : List Task} {t : Task} {n : Nat}
    (h : WFtasks (l1 ++ t :: l2) n) : WFtasks (l1 ++ l2) n := by
  have hs : (l1 ++ l2).Sublist (l1 ++ t :: l2) :=
    (List.sublist_cons_self t l2).append_left l1
  obtain ⟨h1, h2, h3⟩ := h
  exact ⟨h1.sublist hs, fun x hx => h2 x (hs.subset hx), h3.sublist hs⟩

theorem WFtasks_enqueue {q : List Task} {n : Nat} (h : WFtasks q n)
    (t : Task) (ht : t.id = n) : WFtasks (q ++ [t]) (n + 1) := by
  obtain ⟨h1, h2, h3⟩ := h
  refine ⟨?_, ?_, ?_⟩
  · rw [List.pairwise_append]
    refine ⟨h1, List.pairwise_singleton _ _, ?_⟩
    intro a ha b hb
    have ha2 := h2 a ha
    simp only [List.mem_singleton] at hb
    subst hb
    rw [ht]
    omega
  · intro x hx
    rcases List.mem_append.mp hx with hx | hx
    · exact lt_trans (h2 x hx) (Nat.lt_succ_self n)
    · simp only [List.mem_singleton] at hx
      subst hx
      rw [ht]
      omega
  · rw [List.pairwise_append]
    refine ⟨h3, List.pairwise_singleton _ _, ?_⟩
    intro a ha b hb _
    have ha2 := h2 a ha
    simp only [List.mem_singleton] at hb
    subst hb
    rw [ht]
    omega

/-! ### Lemmas about the worker-map primitives -/

theorem updateObj_keys (wid : Nat) (f : WorkerInfo → WorkerInfo)
    (ws : List (Nat × WorkerInfo)) :
    (updateObj wid f ws).map Prod.fst = ws.map Prod.fst := by
  induction ws with
  | nil => rfl
  | cons w rest ih =>
    obtain ⟨i, info⟩ := w
    by_cases h : i = wid
    · simp [updateObj, h]
    · simp [updateObj, h, ih]

theorem updateObj_length (wid : Nat) (f : WorkerInfo → WorkerInfo)
    (ws : List (Nat × WorkerInfo)) :
    (updateObj wid f ws).length = ws.length := by
  have h := congrArg List.length (updateObj_keys wid f ws)
  simpa using h

theorem lookupObj_updateObj_ne {wid wid' : Nat} (h : wid' ≠ wid)
    (f : WorkerInfo → WorkerInfo) (ws : List (Nat × WorkerInfo)) :
    lookupObj wid' (updateObj wid f ws) = lookupObj wid' ws := by
  induction ws with
  | nil => rfl
  | cons w rest ih =>
    obtain ⟨i, info⟩ := w
    by_cases hi : i = wid
    · subst hi
      simp [updateObj, lookupObj, Ne.symm h, ih]
    · by_cases hi' : i = wid'
      · subst hi'
        simp [updateObj, lookupObj, h]
      · simp [updateObj, lookupObj, hi, hi', ih]

theorem lookupObj_updateObj_self (wid : Nat) (f : WorkerInfo → WorkerInfo)
    (ws : List (Nat × WorkerInfo)) :
    lookupObj wid (updateObj wid f ws) = (lookupObj wid ws).map f := by
  induction ws with
  | nil => rfl
  | cons w rest ih =>
    obtain ⟨i, info⟩ := w
    by_cases hi : i = wid
    · simp [updateObj, lookupObj, hi]
    · simp [updateObj, lookupObj, hi, ih]

theorem lookupObj_mem {wid : Nat} {ws : List (Nat × WorkerInfo)} {info : WorkerInfo}
    (h : lookupObj wid ws = some info) : (wid, info) ∈ ws := by
  induction ws with
  | nil => exact Option.noConfusion h
  | cons w rest ih =>
    obtain ⟨i, x⟩ := w
    by_cases hi : i = wid
    · subst hi
      simp only [lookupObj, if_true, Option.some.injEq] at h
      subst h
      exact List.mem_cons_self _ _
    · simp only [lookupObj, if_neg hi] at h
      exact List.mem_cons_of_mem _ (ih h)

theorem lookupObj_mem_keys {wid : Nat} {ws : List (Nat × WorkerInfo)} {info : WorkerInfo}
    (h : lookupObj wid ws = some info) : wid ∈ ws.map Prod.fst := by
  exact List.mem_map.mpr ⟨(wid, info), lookupObj_mem h, rfl⟩

theorem WFworkers_update {ws : List (Nat × WorkerInfo)} {n : Nat}
    (h : WFworkers ws n) (wid : Nat) (f : WorkerInfo → WorkerInfo) :
    WFworkers (updateObj wid f ws) n := by
  obtain ⟨h1, h2⟩ := h
  constructor
  · have hn : ((updateObj wid f ws).map Prod.fst).Pairwise (fun a b => a ≠ b) := by
      rw [updateObj_keys]
      exact List.pairwise_map.mpr h1
    exact List.pairwise_map.mp hn
  · intro w hw
    have hmem : w.1 ∈ (updateObj wid f ws).map Prod.fst := List.mem_map_of_mem _ hw
    rw [updateObj_keys] at hmem
    obtain ⟨w', hw', he⟩ := List.mem_map.mp hmem
    exact he ▸ h2 w' hw'

theorem WFworkers_append_fresh {ws : List (Nat × WorkerInfo)} {n : Nat}
    (h : WFworkers ws n) (info : WorkerInfo) :
    WFworkers (ws ++ [(n, info)]) (n + 1) := by
  obtain ⟨h1, h2⟩ := h
  constructor
  · rw [List.pairwise_append]
    refine ⟨h1, List.pairwise_singleton _ _, ?_⟩
    intro a ha b hb
    simp only [List.mem_singleton] at hb
    subst hb
    exact Nat.ne_of_lt (h2 a ha)
  · intro w hw
    rcases List.mem_append.mp hw with hw | hw
    · exact lt_trans (h2 w hw) (Nat.lt_succ_self n)
    · simp only [List.mem_singleton] at hw
      subst hw
      exact Nat.lt_succ_self n

theorem liveCount_cons (w : Nat × WorkerInfo) (ws : List (Nat × WorkerInfo)) :
    liveCount (w :: ws) = liveCount ws + (if w.2.live then 1 else 0) := by
  simp [liveCount, List.countP_cons]

theorem liveCount_append (ws1 ws2 : List (Nat × WorkerInfo)) :
    liveCount (ws1 ++ ws2) = liveCount ws1 + liveCount ws2 := by
  simp [liveCount, List.countP_append]

theorem liveCount_updateObj_eq (f : WorkerInfo → WorkerInfo)
    (hf : ∀ i, (f i).live = i.live) (wid : Nat) (ws : List (Nat × WorkerInfo)) :
    liveCount (updateObj wid f ws) = liveCount ws := by
  induction ws with
  | nil => rfl
  | cons w rest ih =>
    obtain ⟨i, info⟩ := w
    by_cases h : i = wid
    · simp [updateObj, h, liveCount_cons, hf]
    · simp only [updateObj, if_neg h]
      rw [liveCount_cons, liveCount_cons, ih]

theorem ite_le_ite_of_imp {b c : Bool} (h : b = true → c = true) :
    (if b = true then 1 else 0) ≤ (if c = true then 1 else 0) := by
  by_cases hb : b = true
  · rw [if_pos hb, if_pos (h hb)]
  · rw [if_neg hb]
    omega

theorem liveCount_updateObj_le (f : WorkerInfo → WorkerInfo)
    (hf : ∀ i, (f i).live = true → i.live = true) (wid : Nat)
    (ws : List (Nat × WorkerInfo)) :
    liveCount (updateObj wid f ws) ≤ liveCount ws := by
  induction ws with
  | nil => exact le_refl _
  | cons w rest ih =>
    obtain ⟨i, info⟩ := w
    by_cases h : i = wid
    · simp only [updateObj, if_pos h]
      rw [liveCount_cons, liveCount_cons]
      exact Nat.add_le_add_left (ite_le_ite_of_imp (hf info)) (liveCount rest)
    · simp only [updateObj, if_neg h]
      rw [liveCount_cons, liveCount_cons]
      exact Nat.add_le_add_right ih _

theorem liveCount_spawn (now : Nat) (s : PoolState) :
    liveCount (spawnWorker now s).workers = liveCount s.workers + 1 := by
  simp [spawnWorker, liveCount_append, liveCount, List.countP_cons]

theorem getAvailableWorker_append_single {ws : List (Nat × WorkerInfo)}
    (h : getAvailableWorker ws = none) (k : Nat) (info : WorkerInfo) :
    getAvailableWorker (ws ++ [(k, info)]) =
      if info.live && !info.busy then some k else none := by
  induction ws with
  | nil => rfl
  | cons w rest ih =>
    obtain ⟨i, x⟩ := w
    by_cases hc : (x.live && !x.busy) = true
    · simp only [getAvailableWorker, if_pos hc] at h
      exact Option.noConfusion h
    · simp only [getAvailableWorker, if_neg hc] at h
      simp only [List.cons_append, getAvailableWorker, if_neg hc]
      exact ih h

theorem getAvailableWorker_some {ws : List (Nat × WorkerInfo)} {wid : Nat}
    (hnd : ws.Pairwise (fun a b => a.1 ≠ b.1))
    (h : getAvailableWorker ws = some wid) :
    ∃ info, lookupObj wid ws = some info ∧ info.live = true ∧ info.busy = false := by
  induction ws with
  | nil => exact Option.noConfusion h
  | cons w rest ih =>
    obtain ⟨i, x⟩ := w
    rcases List.pairwise_cons.mp hnd with ⟨hhead, hrest⟩
    by_cases hc : (x.live && !x.busy) = true
    · simp only [getAvailableWorker, if_pos hc, Option.some.injEq] at h
      subst h
      have hc2 : x.live = true ∧ x.busy = false := by
        have hcc := hc
        simp only [Bool.and_eq_true, Bool.not_eq_true'] at hcc
        exact hcc
      exact ⟨x, by simp [lookupObj], hc2.1, hc2.2⟩
    · simp only [getAvailableWorker, if_neg hc] at h
      obtain ⟨info, hl, hlive, hbusy⟩ := ih hrest h
      refine ⟨info, ?_, hlive, hbusy⟩
      have hi : i ≠ wid := hhead (wid, info) (lookupObj_mem hl)
      simp [lookupObj, hi, hl]

/-! ### Lemmas about the dispatch pass -/

theorem dispatchLoop_shape (cfg : Config) (now : Nat) (l : List Task) :
    ∀ s : PoolState, ∃ ws nwid,
      dispatchLoop cfg now l s = { s with workers := ws, nextWorkerId := nwid } := by
  induction l with
  | nil =>
    intro s
    exact ⟨s.workers, s.nextWorkerId, rfl⟩
  | cons t rest ih =>
    intro s
    rw [dispatchLoop]
    cases h : getAvailableWorker s.workers with
    | some wid =>
      obtain ⟨ws, nwid, hh⟩ := ih { s with workers := assignTask now wid t.id s.workers }
      exact ⟨ws, nwid, hh⟩
    | none =>
      by_cases hm : liveCount s.workers < cfg.maxWorkers
      · simp only [if_pos hm]
        cases h2 : getAvailableWorker (spawnWorker now s).workers with
        | some wid =>
          obtain ⟨ws, nwid, hh⟩ :=
            ih { spawnWorker now s with workers := assignTask now wid t.id (spawnWorker now s).workers }
          exact ⟨ws, nwid, hh⟩
        | none =>
          exact ⟨(spawnWorker now s).workers, (spawnWorker now s).nextWorkerId, rfl⟩
      · simp only [if_neg hm]
        exact ⟨s.workers, s.nextWorkerId, rfl⟩

theorem dispatchLoop_taskQueue (cfg : Config) (now : Nat) (l : List Task) (s : PoolState) :
    (dispatchLoop cfg now l s).taskQueue = s.taskQueue := by
  obtain ⟨ws, nwid, h⟩ := dispatchLoop_shape cfg now l s
  rw [h]

theorem dispatchLoop_nextTaskId (cfg : Config) (now : Nat) (l : List Task) (s : PoolState) :
    (dispatchLoop cfg now l s).nextTaskId = s.nextTaskId := by
  obtain ⟨ws, nwid, h⟩ := dispatchLoop_shape cfg now l s
  rw [h]

theorem dispatchLoop_shut (cfg : Config) (now : Nat) (l : List Task) (s : PoolState) :
    (dispatchLoop cfg now l s).isShuttingDown = s.isShuttingDown := by
  obtain ⟨ws, nwid, h⟩ := dispatchLoop_shape cfg now l s
  rw [h]

theorem assignTask_live (now wid tid : Nat) (ws : List (Nat × WorkerInfo)) :
    liveCount (assignTask now wid tid ws) = liveCount ws := by
  unfold assignTask
  apply liveCount_updateObj_eq
  intro i
  rfl

theorem dispatchLoop_WFworkers (cfg : Config) (now : Nat) (l : List Task) :
    ∀ s : PoolState, WFworkers s.workers s.nextWorkerId →
      WFworkers (dispatchLoop cfg now l s).workers (dispatchLoop cfg now l s).nextWorkerId := by
  induction l with
  | nil => intro s h; exact h
  | cons t rest ih =>
    intro s h
    rw [dispatchLoop]
    cases hav : getAvailableWorker s.workers with
    | some wid =>
      exact ih _ (WFworkers_update h wid _)
    | none =>
      by_cases hm : liveCount s.workers < cfg.maxWorkers
      · simp only [if_pos hm]
        have hsp : WFworkers (spawnWorker now s).workers (spawnWorker now s).nextWorkerId :=
          WFworkers_append_fresh h _
        cases h2 : getAvailableWorker (spawnWorker now s).workers with
        | some wid => exact ih _ (WFworkers_update hsp wid _)
        | none => exact hsp
      · simp only [if_neg hm]
        exact h

theorem dispatchLoop_liveCount (cfg : Config) (now : Nat) (l : List Task) :
    ∀ s : PoolState, liveCount s.workers ≤ cfg.maxWorkers →
      liveCount (dispatchLoop cfg now l s).workers ≤ cfg.maxWorkers := by
  induction l with
  | nil => intro s h; exact h
  | cons t rest ih =>
    intro s h
    rw [dispatchLoop]
    cases hav : getAvailableWorker s.workers with
    | some wid =>
      refine ih _ ?_
      show liveCount (assignTask now wid t.id s.workers) ≤ cfg.maxWorkers
      rw [assignTask_live]
      exact h
    | none =>
      by_cases hm : liveCount s.workers < cfg.maxWorkers
      · simp only [if_pos hm]
        have hsp : liveCount (spawnWorker now s).workers ≤ cfg.maxWorkers := by
          rw [liveCount_spawn]
          omega
        cases h2 : getAvailableWorker (spawnWorker now s).workers with
        | some wid =>
          refine ih _ ?_
          show liveCount (assignTask now wid t.id (spawnWorker now s).workers) ≤ cfg.maxWorkers
          rw [assignTask_live]
          exact hsp
        | none => exact hsp
      · simp only [if_neg hm]
        exact h

theorem processQueue_taskQueue (cfg : Config) (now : Nat) (s : PoolState) :
    SortedOrEq s.taskQueue (processQueue cfg now s).taskQueue := by
  unfold processQueue
  split
  · exact Or.inl rfl
  · split
    · exact Or.inl rfl
    · simp only [dispatchLoop_taskQueue]
      exact Or.inr rfl

theorem processQueue_perm (cfg : Config) (now : Nat) (s : PoolState) :
    (processQueue cfg now s).taskQueue.Perm s.taskQueue := by
  rcases processQueue_taskQueue cfg now s with h | h
  · rw [h]
  · rw [h]
    exact sortByPriority_perm _

theorem processQueue_nextTaskId (cfg : Config) (now : Nat) (s : PoolState) :
    (processQueue cfg now s).nextTaskId = s.nextTaskId := by
  unfold processQueue
  split
  · rfl
  · split
    · rfl
    · simp only [dispatchLoop_nextTaskId]

theorem processQueue_shut (cfg : Config) (now : Nat) (s : PoolState) :
    (processQueue cfg now s).isShuttingDown = s.isShuttingDown := by
  unfold processQueue
  split
  · rfl
  · split
    · rfl
    · simp only [dispatchLoop_shut]

theorem processQueue_of_shut {s : PoolState} (cfg : Config) (now : Nat)
    (h : s.isShuttingDown = true) : processQueue cfg now s = s := by
  unfold processQueue
  rw [h]
  simp

theorem processQueue_WFworkers (cfg : Config) (now : Nat) (s : PoolState)
    (h : WFworkers s.workers s.nextWorkerId) :
    WFworkers (processQueue cfg now s).workers (processQueue cfg now s).nextWorkerId := by
  unfold processQueue
  split
  · exact h
  · split
    · exact h
    · exact dispatchLoop_WFworkers cfg now _ _ h

theorem processQueue_liveCount (cfg : Config) (now : Nat) (s : PoolState)
    (h : liveCount s.workers ≤ cfg.maxWorkers) :
    liveCount (processQueue cfg now s).workers ≤ cfg.maxWorkers := by
  unfold processQueue
  split
  · exact h
  · split
    · exact h
    · exact dispatchLoop_liveCount cfg now _ _ h

theorem processQueue_WFtasks (cfg : Config) (now : Nat) (s : PoolState)
    (h : WFtasks s.taskQueue s.nextTaskId) :
    WFtasks (processQueue cfg now s).taskQueue (processQueue cfg now s).nextTaskId := by
  rw [processQueue_nextTaskId]
  exact WFtasks_sortOrEq h (processQueue_taskQueue cfg now s)

/-! ### Classification of the queue effect of each event -/

theorem extractTask_of_mem {tid : Nat} {l : List Task} (h : tid ∈ l.map Task.id) :
    ∃ t rest, extractTask tid l = some (t, rest) := by
  cases he : extractTask tid l with
  | none =>
    rw [extractTask_none_iff] at he
    exact absurd h he
  | some p =>
    obtain ⟨a, b⟩ := p
    exact ⟨a, b, rfl⟩

theorem exec_classify (cfg : Config) (now : Nat) (ty da : String) (tmo : Option Nat)
    (pri : Option Int) (s : PoolState) :
    QueuePreserved s ((execute cfg now ty da tmo pri s).2) [] ∨
    Enqueued s ((execute cfg now ty da tmo pri s).2) [] := by
  unfold execute
  cases hsd : s.isShuttingDown with
  | true =>
    left
    simp only [if_true]
    exact ⟨Or.inl rfl, rfl, rfl⟩
  | false =>
    right
    simp only [Bool.false_eq_true, if_false]
    refine ⟨⟨s.nextTaskId, ty, da, tmo, pri⟩, rfl, ?_, rfl, ?_⟩
    · exact processQueue_taskQueue cfg now _
    · rw [processQueue_nextTaskId]

theorem message_classify (cfg : Config) (now wid : Nat) (res : WorkerResult)
    (s : PoolState) :
    QueuePreserved s (handleWorkerMessage cfg now wid res s).1
      (handleWorkerMessage cfg now wid res s).2 ∨
    SettledOne s (handleWorkerMessage cfg now wid res s).1
      (handleWorkerMessage cfg now wid res s).2 := by
  unfold handleWorkerMessage
  cases hl : lookupLive wid s.workers with
  | none =>
    left
    exact ⟨Or.inl rfl, rfl, rfl⟩
  | some info =>
    simp only
    cases hx : extractTask res.taskId s.taskQueue with
    | none =>
      left
      exact ⟨Or.inl rfl, rfl, rfl⟩
    | some p =>
      obtain ⟨task, rest⟩ := p
      right
      obtain ⟨hid, l1, l2, hq, hr⟩ := extractTask_some_spec hx
      refine ⟨task,
        (if res.success then Outcome.resolved res.data
         else Outcome.rejectedTaskError (strOr res.error "Task failed")), l1, l2, hq, ?_, ?_, ?_⟩
      · have h2 := processQueue_taskQueue cfg now
          { s with
            workers := updateObj wid
              (fun info =>
                { info with busy := false, currentTask := none, lastActivity := now,
                            tasksCompleted := info.tasksCompleted + 1 }) s.workers
            taskQueue := rest }
        rw [← hr]
        exact h2
      · cases res.success <;> simp
      · rw [processQueue_nextTaskId]

theorem killAndRespawn_taskQueue (cfg : Config) (now wid : Nat) (s : PoolState) :
    (killAndRespawn cfg now wid s).taskQueue = s.taskQueue := by
  unfold killAndRespawn
  split <;> rfl

theorem killAndRespawn_nextTaskId (cfg : Config) (now wid : Nat) (s : PoolState) :
    (killAndRespawn cfg now wid s).nextTaskId = s.nextTaskId := by
  unfold killAndRespawn
  split <;> rfl

theorem killAndRespawn_shut (cfg : Config) (now wid : Nat) (s : PoolState) :
    (killAndRespawn cfg now wid s).isShuttingDown = s.isShuttingDown := by
  unfold killAndRespawn
  split <;> rfl

theorem errorCore_classify (cfg : Config) (now wid : Nat) (s : PoolState) :
    ((handleWorkerErrorCore cfg now wid s).1.taskQueue = s.taskQueue ∧
      (handleWorkerErrorCore cfg now wid s).2 = [] ∧
      (handleWorkerErrorCore cfg now wid s).1.nextTaskId = s.nextTaskId) ∨
    (∃ (t : Task) (l1 l2 : List Task),
      s.taskQueue = l1 ++ t :: l2 ∧
      (handleWorkerErrorCore cfg now wid s).1.taskQueue = l1 ++ l2 ∧
      (handleWorkerErrorCore cfg now wid s).2 = [Settlement.mk t.id Outcome.rejectedWorkerCrash] ∧
      (handleWorkerErrorCore cfg now wid s).1.nextTaskId = s.nextTaskId) := by
  unfold handleWorkerErrorCore
  cases hl : lookupLive wid s.workers with
  | none =>
    left
    exact ⟨rfl, rfl, rfl⟩
  | some info =>
    simp only
    cases hct : info.currentTask with
    | none =>
      left
      exact ⟨killAndRespawn_taskQueue cfg now wid s, rfl, killAndRespawn_nextTaskId cfg now wid s⟩
    | some tid =>
      simp only
      cases hx : extractTask tid s.taskQueue with
      | none =>
        left
        exact ⟨killAndRespawn_taskQueue cfg now wid s, rfl, killAndRespawn_nextTaskId cfg now wid s⟩
      | some p =>
        obtain ⟨task, rest⟩ := p
        right
        obtain ⟨hid, l1, l2, hq, hr⟩ := extractTask_some_spec hx
        refine ⟨task, l1, l2, hq, ?_, rfl, ?_⟩
        · rw [killAndRespawn_taskQueue]
          exact hr
        · rw [killAndRespawn_nextTaskId]

theorem workerErrorStep_eq (cfg : Config) (now wid : Nat) (s : PoolState) :
    workerErrorStep cfg now wid s =
      (processQueue cfg now
        (handleWorkerErrorCore cfg now wid
          { s with workers := updateObj wid (fun i => { i with errors := i.errors + 1 }) s.workers }).1,
       (handleWorkerErrorCore cfg now wid
          { s with workers := updateObj wid (fun i => { i with errors := i.errors + 1 }) s.workers }).2) := by
  unfold workerErrorStep
  rfl

theorem error_classify (cfg : Config) (now wid : Nat) (s : PoolState) :
    QueuePreserved s (workerErrorStep cfg now wid s).1 (workerErrorStep cfg now wid s).2 ∨
    SettledOne s (workerErrorStep cfg now wid s).1 (workerErrorStep cfg now wid s).2 := by
  rw [workerErrorStep_eq]
  rcases errorCore_classify cfg now wid
      { s with workers := updateObj wid (fun i => { i with errors := i.errors + 1 }) s.workers }
    with ⟨hq, hs, hn⟩ | ⟨t, l1, l2, hq, hq2, hs, hn⟩
  · left
    refine ⟨?_, hs, ?_⟩
    · have h2 := processQueue_taskQueue cfg now
        (handleWorkerErrorCore cfg now wid
          { s with workers := updateObj wid (fun i => { i with errors := i.errors + 1 }) s.workers }).1
      rw [hq] at h2
      exact h2
    · rw [processQueue_nextTaskId, hn]
  · right
    refine ⟨t, Outcome.rejectedWorkerCrash, l1, l2, hq, ?_, hs, ?_⟩
    · have h2 := processQueue_taskQueue cfg now
        (handleWorkerErrorCore cfg now wid
          { s with workers := updateObj wid (fun i => { i with errors := i.errors + 1 }) s.workers }).1
      rw [hq2] at h2
      exact h2
    · rw [processQueue_nextTaskId, hn]

theorem timer_classify (wid tid : Nat) (s : PoolState) :
    QueuePreserved s (timerFireStep wid tid s).1 (timerFireStep wid tid s).2 ∨
    SettledOne s (timerFireStep wid tid s).1 (timerFireStep wid tid s).2 := by
  unfold timerFireStep
  cases hl : lookupObj wid s.workers with
  | none =>
    left
    exact ⟨Or.inl rfl, rfl, rfl⟩
  | some info =>
    simp only
    by_cases hct : info.currentTask = some tid
    · rw [if_pos hct]
      cases hx : extractTask tid s.taskQueue with
      | none =>
        left
        exact ⟨Or.inl rfl, rfl, rfl⟩
      | some p =>
        obtain ⟨task, rest⟩ := p
        right
        obtain ⟨hid, l1, l2, hq, hr⟩ := extractTask_some_spec hx
        exact ⟨task, Outcome.rejectedTimeout, l1, l2, hq, Or.inl hr, rfl, rfl⟩
    · rw [if_neg hct]
      left
      exact ⟨Or.inl rfl, rfl, rfl⟩

theorem step_classify (cfg : Config) (s : PoolState) (e : Event) :
    QueuePreserved s (step cfg s e).1 (step cfg s e).2 ∨
    Enqueued s (step cfg s e).1 (step cfg s e).2 ∨
    SettledOne s (step cfg s e).1 (step cfg s e).2 ∨
    SettledAll s (step cfg s e).1 (step cfg s e).2 := by
  cases e with
  | exec ty da tmo pri now =>
    rcases exec_classify cfg now ty da tmo pri s with h | h
    · exact Or.inl h
    · exact Or.inr (Or.inl h)
  | message wid res now =>
    rcases message_classify cfg now wid res s with h | h
    · exact Or.inl h
    · exact Or.inr (Or.inr (Or.inl h))
  | workerError wid now =>
    rcases error_classify cfg now wid s with h | h
    · exact Or.inl h
    · exact Or.inr (Or.inr (Or.inl h))
  | workerExit wid now =>
    left
    exact ⟨Or.inl (killAndRespawn_taskQueue cfg now wid s), rfl,
      killAndRespawn_nextTaskId cfg now wid s⟩
  | timerFire wid tid =>
    rcases timer_classify wid tid s with h | h
    · exact Or.inl h
    · exact Or.inr (Or.inr (Or.inl h))
  | idleSweep now =>
    left
    exact ⟨Or.inl rfl, rfl, rfl⟩
  | shutdownBegin =>
    left
    exact ⟨Or.inl rfl, rfl, rfl⟩
  | shutdownFinalize =>
    right; right; right
    exact ⟨rfl, rfl, rfl⟩

/-! ### Well-formedness is preserved by every event -/

theorem WFworkers_of_keys_eq {ws ws' : List (Nat × WorkerInfo)} {n : Nat}
    (hk : ws'.map Prod.fst = ws.map Prod.fst) (h : WFworkers ws n) : WFworkers ws' n := by
  obtain ⟨h1, h2⟩ := h
  constructor
  · have hn : (ws'.map Prod.fst).Pairwise (fun a b => a ≠ b) := by
      rw [hk]
      exact List.pairwise_map.mpr h1
    exact List.pairwise_map.mp hn
  · intro w hw
    have hmem : w.1 ∈ ws'.map Prod.fst := List.mem_map_of_mem _ hw
    rw [hk] at hmem
    obtain ⟨w', hw', he⟩ := List.mem_map.mp hmem
    exact he ▸ h2 w' hw'

theorem cleanupAux_keys (cfg : Config) (now : Nat) :
    ∀ (ws : List (Nat × WorkerInfo)) (accLive : Nat),
      (cleanupAux cfg now accLive ws).map Prod.fst = ws.map Prod.fst := by
  intro ws
  induction ws with
  | nil => intro acc; rfl
  | cons w rest ih =>
    intro acc
    obtain ⟨i, info⟩ := w
    unfold cleanupAux
    by_cases h1 : info.live = true
    · rw [if_pos h1]
      by_cases h2 : (!info.busy && decide (cfg.minWorkers < acc + 1 + liveCount rest)
          && staleCheck cfg now info) = true
      · rw [if_pos h2]
        simp [ih]
      · rw [if_neg h2]
        simp [ih]
    · rw [if_neg h1]
      simp [ih]

theorem killAndRespawn_WFworkers (cfg : Config) (now wid : Nat) {s : PoolState}
    (h : WFworkers s.workers s.nextWorkerId) :
    WFworkers (killAndRespawn cfg now wid s).workers
      (killAndRespawn cfg now wid s).nextWorkerId := by
  unfold killAndRespawn
  split
  · exact WFworkers_append_fresh (WFworkers_update h wid _) _
  · exact WFworkers_update h wid _

theorem errorCore_WFworkers (cfg : Config) (now wid : Nat) {s : PoolState}
    (h : WFworkers s.workers s.nextWorkerId) :
    WFworkers (handleWorkerErrorCore cfg now wid s).1.workers
      (handleWorkerErrorCore cfg now wid s).1.nextWorkerId := by
  unfold handleWorkerErrorCore
  cases hl : lookupLive wid s.workers with
  | none => exact h
  | some info =>
    simp only
    cases hct : info.currentTask with
    | none => exact killAndRespawn_WFworkers cfg now wid h
    | some tid =>
      simp only
      cases hx : extractTask tid s.taskQueue with
      | none => exact killAndRespawn_WFworkers cfg now wid h
      | some p =>
        obtain ⟨task, rest⟩ := p
        exact killAndRespawn_WFworkers cfg now wid h

theorem step_WFworkers (cfg : Config) (s : PoolState) (e : Event)
    (h : WFworkers s.workers s.nextWorkerId) :
    WFworkers (step cfg s e).1.workers (step cfg s e).1.nextWorkerId := by
  cases e with
  | exec ty da tmo pri now =>
    show WFworkers (execute cfg now ty da tmo pri s).2.workers
      (execute cfg now ty da tmo pri s).2.nextWorkerId
    unfold execute
    split
    · exact h
    · exact processQueue_WFworkers cfg now _ h
  | message wid res now =>
    show WFworkers (handleWorkerMessage cfg now wid res s).1.workers
      (handleWorkerMessage cfg now wid res s).1.nextWorkerId
    unfold handleWorkerMessage
    cases hl : lookupLive wid s.workers with
    | none => exact h
    | some info =>
      simp only
      cases hx : extractTask res.taskId s.taskQueue with
      | none => exact WFworkers_update h wid _
      | some p =>
        obtain ⟨task, rest⟩ := p
        simp only
        exact processQueue_WFworkers cfg now _ (WFworkers_update h wid _)
  | workerError wid now =>
    show WFworkers (workerErrorStep cfg now wid s).1.workers
      (workerErrorStep cfg now wid s).1.nextWorkerId
    rw [workerErrorStep_eq]
    exact processQueue_WFworkers cfg now _ (errorCore_WFworkers cfg now wid (WFworkers_update h wid _))
  | workerExit wid now =>
    exact killAndRespawn_WFworkers cfg now wid h
  | timerFire wid tid =>
    show WFworkers (timerFireStep wid tid s).1.workers (timerFireStep wid tid s).1.nextWorkerId
    unfold timerFireStep
    cases hl : lookupObj wid s.workers with
    | none => exact h
    | some info =>
      simp only
      by_cases hct : info.currentTask = some tid
      · rw [if_pos hct]
        cases hx : extractTask tid s.taskQueue with
        | none => exact WFworkers_update h wid _
        | some p =>
          obtain ⟨task, rest⟩ := p
          exact WFworkers_update h wid _
      · rw [if_neg hct]
        exact h
  | idleSweep now =>
    exact WFworkers_of_keys_eq (cleanupAux_keys cfg now s.workers 0) h
  | shutdownBegin => exact h
  | shutdownFinalize =>
    refine WFworkers_of_keys_eq ?_ h
    show ((s.workers.map (fun w => (w.1, { w.2 with live := false }))).map Prod.fst)
      = s.workers.map Prod.fst
    rw [List.map_map]
    rfl

theorem WFtasks_nil (n : Nat) : WFtasks [] n :=
  ⟨List.Pairwise.nil, by intro t ht; exact absurd ht (List.not_mem_nil t), List.Pairwise.nil⟩

theorem step_WFtasks (cfg : Config) (s : PoolState) (e : Event)
    (h : WFtasks s.taskQueue s.nextTaskId) :
    WFtasks (step cfg s e).1.taskQueue (step cfg s e).1.nextTaskId := by
  rcases step_classify cfg s e with ⟨hq, _, hn⟩ | ⟨t, ht, hq, _, hn⟩ |
    ⟨t, o, l1, l2, hq, hq2, _, hn⟩ | ⟨_, hq, hn⟩
  · rw [hn]
    exact WFtasks_sortOrEq h hq
  · rw [hn]
    exact WFtasks_sortOrEq (WFtasks_enqueue h t ht) hq
  · rw [hn]
    exact WFtasks_sortOrEq (WFtasks_remove (hq ▸ h)) hq2
  · rw [hn, hq]
    exact WFtasks_nil _

theorem step_WF (cfg : Config) (s : PoolState) (e : Event) (h : WF s) :
    WF (step cfg s e).1 :=
  ⟨step_WFtasks cfg s e h.1, step_WFworkers cfg s e h.2⟩

theorem spawnN_WF (now : Nat) : ∀ (k : Nat) (s : PoolState), WF s → WF (spawnN now k s) := by
  intro k
  induction k with
  | zero => intro s h; exact h
  | succ n ih =>
    intro s h
    exact ih _ ⟨h.1, WFworkers_append_fresh h.2 _⟩

theorem initState_WF (cfg : Config) (now : Nat) : WF (initState cfg now) := by
  apply spawnN_WF
  exact ⟨WFtasks_nil 0, List.Pairwise.nil, by intro w hw; exact absurd hw (List.not_mem_nil w)⟩

theorem run_WF (cfg : Config) (evts : List Event) :
    ∀ s : PoolState, WF s → WF (run cfg s evts).1 := by
  induction evts with
  | nil => intro s h; exact h
  | cons e rest ih =>
    intro s h
    exact ih _ (step_WF cfg s e h)

/-! ### Settlement counting -/

theorem countSettle_nil (i : Nat) : countSettle i [] = 0 := rfl

theorem countSettle_append (i : Nat) (a b : List Settlement) :
    countSettle i (a ++ b) = countSettle i a + countSettle i b := by
  simp [countSettle, List.countP_append]

theorem countSettle_single (i : Nat) (st : Settlement) :
    countSettle i [st] = if st.taskId = i then 1 else 0 := by
  simp [countSettle, List.countP_cons, List.countP_nil]

theorem countSettle_mapShutdown (i : Nat) (q : List Task) :
    countSettle i (q.map (fun t => Settlement.mk t.id Outcome.rejectedShutdown)) =
      q.countP (fun t => t.id = i) := by
  rw [countSettle, List.countP_map]
  rfl

theorem countP_ids_le_one {q : List Task} (h : q.Pairwise (fun a b => a.id ≠ b.id)) (i : Nat) :
    q.countP (fun t => t.id = i) ≤ 1 := by
  induction q with
  | nil => simp
  | cons t rest ih =>
    rcases List.pairwise_cons.mp h with ⟨hh, hrest⟩
    rw [List.countP_cons]
    by_cases ht : t.id = i
    · have hz : rest.countP (fun t => decide (t.id = i)) = 0 := by
        rw [List.countP_eq_zero]
        intro x hx
        simp only [decide_eq_true_eq]
        intro he
        exact hh x hx (by rw [ht, he])
      rw [hz]
      simp [ht]
    · simp only [ht, decide_False, if_false, Nat.add_zero]
      exact ih hrest

theorem countP_ids_pos {q : List Task} {i : Nat} (h : i ∈ q.map Task.id) :
    1 ≤ q.countP (fun t => t.id = i) := by
  obtain ⟨t, ht, he⟩ := List.mem_map.mp h
  have hp : 0 < q.countP (fun t => decide (t.id = i)) :=
    List.countP_pos_iff.mpr ⟨t, ht, by simp [he]⟩
  omega

theorem countP_ids_zero {q : List Task} {i : Nat} (h : i ∉ q.map Task.id) :
    q.countP (fun t => t.id = i) = 0 := by
  rw [List.countP_eq_zero]
  intro x hx
  simp only [decide_eq_true_eq]
  intro he
  exact h (List.mem_map.mpr ⟨x, hx, he⟩)

theorem mem_ids_sortOrEq {base q : List Task} (h : SortedOrEq base q) (i : Nat) :
    i ∈ q.map Task.id ↔ i ∈ base.map Task.id := by
  rcases h with rfl | rfl
  · exact Iff.rfl
  · exact ((sortByPriority_perm base).map Task.id).mem_iff

theorem nodup_ids_middle {l1 l2 : List Task} {t : Task} {n : Nat}
    (h : WFtasks (l1 ++ t :: l2) n) : t.id ∉ (l1 ++ l2).map Task.id := by
  have hp := h.1
  rw [List.pairwise_append] at hp
  obtain ⟨hp1, hp2, hcross⟩ := hp
  rcases List.pairwise_cons.mp hp2 with ⟨ht2, _⟩
  intro hmem
  rw [List.map_append, List.mem_append] at hmem
  rcases hmem with hm | hm
  · obtain ⟨x, hx, he⟩ := List.mem_map.mp hm
    exact (hcross x hx t (List.mem_cons_self _ _)) he
  · obtain ⟨x, hx, he⟩ := List.mem_map.mp hm
    exact (ht2 x hx) he.symm

theorem mem_ids_middle_iff {l1 l2 : List Task} {t : Task} {i : Nat} (hne : i ≠ t.id) :
    i ∈ (l1 ++ t :: l2).map Task.id ↔ i ∈ (l1 ++ l2).map Task.id := by
  simp only [List.map_append, List.map_cons, List.mem_append, List.mem_cons]
  constructor
  · rintro (h | h | h)
    · exact Or.inl h
    · exact absurd h hne
    · exact Or.inr h
  · rintro (h | h)
    · exact Or.inl h
    · exact Or.inr (Or.inr h)

/-! ### The settlement budget shrinks at every step -/

theorem budget_preserved {s s' : PoolState} {sts : List Settlement}
    (h : QueuePreserved s s' sts) (i : Nat) :
    countSettle i sts + budget i s' ≤ budget i s := by
  obtain ⟨hq, hs, hn⟩ := h
  subst hs
  rw [countSettle_nil]
  unfold budget
  rw [hn]
  have e1 : (if i ∈ queueIds s' then 1 else 0) = (if i ∈ queueIds s then 1 else 0) := by
    by_cases hin : i ∈ queueIds s
    · rw [if_pos hin, if_pos (show i ∈ queueIds s' from (mem_ids_sortOrEq hq i).mpr hin)]
    · rw [if_neg hin, if_neg (show ¬(i ∈ queueIds s') from
        fun hc => hin ((mem_ids_sortOrEq hq i).mp hc))]
  rw [e1]
  omega

theorem budget_enqueued {s s' : PoolState} {sts : List Settlement}
    (hwf : WFtasks s.taskQueue s.nextTaskId) (h : Enqueued s s' sts) (i : Nat) :
    countSettle i sts + budget i s' ≤ budget i s := by
  obtain ⟨t, ht, hq, hs, hn⟩ := h
  subst hs
  rw [countSettle_nil]
  unfold budget
  rw [hn]
  have hmem : i ∈ queueIds s' ↔ (i ∈ queueIds s ∨ i = s.nextTaskId) := by
    refine (mem_ids_sortOrEq hq i).trans ?_
    rw [List.map_append, List.mem_append]
    constructor
    · rintro (hx | hx)
      · exact Or.inl hx
      · simp only [List.map_cons, List.map_nil, List.mem_singleton] at hx
        exact Or.inr (ht ▸ hx)
    · rintro (hx | hx)
      · exact Or.inl hx
      · right
        simp only [List.map_cons, List.map_nil, List.mem_singleton]
        rw [hx, ht]
  have hbound : i ∈ queueIds s → i < s.nextTaskId := by
    intro hin
    obtain ⟨x, hx, he⟩ := List.mem_map.mp hin
    exact he ▸ hwf.2.1 x hx
  by_cases h1 : i ∈ queueIds s
  · have := hbound h1
    rw [if_pos h1, if_pos (hmem.mpr (Or.inl h1)), if_neg (by omega), if_neg (by omega)]
  · by_cases h2 : i = s.nextTaskId
    · rw [if_neg h1, if_pos (hmem.mpr (Or.inr h2)), if_neg (by omega), if_pos (by omega)]
    · rw [if_neg h1, if_neg (fun hc => by
        rcases hmem.mp hc with hcc | hcc
        · exact h1 hcc
        · exact h2 hcc)]
      by_cases h3 : s.nextTaskId + 1 ≤ i
      · rw [if_pos h3, if_pos (by omega)]
      · rw [if_neg h3, if_neg (by omega)]

theorem budget_settledOne {s s' : PoolState} {sts : List Settlement}
    (hwf : WFtasks s.taskQueue s.nextTaskId) (h : SettledOne s s' sts) (i : Nat) :
    countSettle i sts + budget i s' ≤ budget i s := by
  obtain ⟨t, o, l1, l2, hq, hq2, hs, hn⟩ := h
  subst hs
  rw [countSettle_single]
  unfold budget
  rw [hn]
  have hmid : t.id ∉ (l1 ++ l2).map Task.id := nodup_ids_middle (hq ▸ hwf)
  by_cases hti : t.id = i
  · subst hti
    have htin : t.id ∈ queueIds s := by
      unfold queueIds
      rw [hq]
      exact List.mem_map.mpr ⟨t, List.mem_append.mpr (Or.inr (List.mem_cons_self _ _)), rfl⟩
    rw [if_pos rfl, if_neg (show ¬(t.id ∈ queueIds s') from
      fun hc => hmid ((mem_ids_sortOrEq hq2 _).mp hc)), if_pos htin]
    by_cases hc : s.nextTaskId ≤ t.id
    · rw [if_pos hc]
    · rw [if_neg hc]
  · rw [if_neg hti]
    have hmem : i ∈ queueIds s' ↔ i ∈ queueIds s := by
      refine (mem_ids_sortOrEq hq2 i).trans ?_
      have h2 : (i ∈ (l1 ++ t :: l2).map Task.id) ↔ i ∈ (l1 ++ l2).map Task.id :=
        mem_ids_middle_iff (fun he => hti he.symm)
      unfold queueIds
      rw [hq]
      exact h2.symm
    by_cases h1 : i ∈ queueIds s
    · rw [if_pos h1, if_pos (hmem.mpr h1)]
      by_cases hc : s.nextTaskId ≤ i
      · rw [if_pos hc]
      · rw [if_neg hc]
    · rw [if_neg h1, if_neg (fun hc => h1 (hmem.mp hc))]
      by_cases hc : s.nextTaskId ≤ i
      · rw [if_pos hc]
      · rw [if_neg hc]

theorem budget_settledAll {s s' : PoolState} {sts : List Settlement}
    (hwf : WFtasks s.taskQueue s.nextTaskId) (h : SettledAll s s' sts) (i : Nat) :
    countSettle i sts + budget i s' ≤ budget i s := by
  obtain ⟨hs, hq, hn⟩ := h
  subst hs
  rw [countSettle_mapShutdown]
  unfold budget queueIds
  rw [hn, hq]
  rw [List.map_nil]
  rw [if_neg (List.not_mem_nil i)]
  by_cases h1 : i ∈ s.taskQueue.map Task.id
  · rw [if_pos h1]
    have hle := countP_ids_le_one hwf.1 i
    by_cases hc : s.nextTaskId ≤ i
    · rw [if_pos hc]
      omega
    · rw [if_neg hc]
      omega
  · rw [if_neg h1, countP_ids_zero h1]
    by_cases hc : s.nextTaskId ≤ i
    · rw [if_pos hc]
    · rw [if_neg hc]

theorem step_budget (cfg : Config) (s : PoolState) (e : Event)
    (hwf : WFtasks s.taskQueue s.nextTaskId) (i : Nat) :
    countSettle i (step cfg s e).2 + budget i (step cfg s e).1 ≤ budget i s := by
  rcases step_classify cfg s e with h | h | h | h
  · exact budget_preserved h i
  · exact budget_enqueued hwf h i
  · exact budget_settledOne hwf h i
  · exact budget_settledAll hwf h i

theorem run_budget (cfg : Config) (evts : List Event) :
    ∀ s : PoolState, WF s → ∀ i : Nat,
      countSettle i (run cfg s evts).2 + budget i (run cfg s evts).1 ≤ budget i s := by
  induction evts with
  | nil =>
    intro s _ i
    rw [show (run cfg s []).2 = [] from rfl, countSettle_nil, Nat.zero_add]
    exact Nat.le_refl _
  | cons e rest ih =>
    intro s h i
    have hstep := step_budget cfg s e h.1 i
    have hrest := ih (step cfg s e).1 (step_WF cfg s e h) i
    show countSettle i ((step cfg s e).2 ++ (run cfg (step cfg s e).1 rest).2) +
        budget i (run cfg (step cfg s e).1 rest).1 ≤ budget i s
    rw [countSettle_append]
    omega

theorem step_settle_mem (cfg : Config) (s : PoolState) (e : Event)
    (hwf : WFtasks s.taskQueue s.nextTaskId) :
    ∀ st ∈ (step cfg s e).2,
      st.taskId ∈ queueIds s ∧ st.taskId ∉ queueIds (step cfg s e).1 := by
  rcases step_classify cfg s e with ⟨_, hs, _⟩ | ⟨t, ht, hq, hs, _⟩ |
    ⟨t, o, l1, l2, hq, hq2, hs, _⟩ | ⟨hs, hq, _⟩
  · rw [hs]
    intro st hst
    exact absurd hst (List.not_mem_nil st)
  · rw [hs]
    intro st hst
    exact absurd hst (List.not_mem_nil st)
  · rw [hs]
    intro st hst
    rw [List.mem_singleton] at hst
    subst hst
    refine ⟨?_, ?_⟩
    · show t.id ∈ queueIds s
      unfold queueIds
      rw [hq]
      exact List.mem_map.mpr ⟨t, List.mem_append.mpr (Or.inr (List.mem_cons_self _ _)), rfl⟩
    · show t.id ∉ queueIds (step cfg s e).1
      intro hc
      exact nodup_ids_middle (hq ▸ hwf) ((mem_ids_sortOrEq hq2 _).mp hc)
  · rw [hs]
    intro st hst
    obtain ⟨t, htq, he⟩ := List.mem_map.mp hst
    subst he
    refine ⟨List.mem_map.mpr ⟨t, htq, rfl⟩, ?_⟩
    show (Settlement.mk t.id Outcome.rejectedShutdown).taskId ∉ queueIds (step cfg s e).1
    unfold queueIds
    rw [hq]
    simp

theorem step_mem_iff (cfg : Config) (s : PoolState) (e : Event)
    (hwf : WFtasks s.taskQueue s.nextTaskId) (i : Nat) (hin : i ∈ queueIds s) :
    (i ∈ queueIds (step cfg s e).1 ↔ countSettle i (step cfg s e).2 = 0) := by
  rcases step_classify cfg s e with ⟨hq, hs, _⟩ | ⟨t, ht, hq, hs, _⟩ |
    ⟨t, o, l1, l2, hq, hq2, hs, _⟩ | ⟨hs, hq, _⟩
  · rw [hs, countSettle_nil]
    refine iff_of_true ?_ rfl
    exact (mem_ids_sortOrEq hq i).mpr hin
  · rw [hs, countSettle_nil]
    refine iff_of_true ?_ rfl
    refine (mem_ids_sortOrEq hq i).mpr ?_
    rw [List.map_append, List.mem_append]
    exact Or.inl hin
  · rw [hs, countSettle_single]
    by_cases hti : t.id = i
    · rw [if_pos hti]
      refine iff_of_false ?_ (by omega)
      intro hc
      have h2 := (mem_ids_sortOrEq hq2 i).mp hc
      rw [← hti] at h2
      exact nodup_ids_middle (hq ▸ hwf) h2
    · rw [if_neg hti]
      refine iff_of_true ?_ rfl
      refine (mem_ids_sortOrEq hq2 i).mpr ?_
      have h3 : i ∈ (l1 ++ t :: l2).map Task.id := by
        have h4 := hin
        unfold queueIds at h4
        rw [hq] at h4
        exact h4
      exact (mem_ids_middle_iff (fun he => hti he.symm)).mp h3
  · rw [hs, countSettle_mapShutdown]
    refine iff_of_false ?_ ?_
    · show i ∉ queueIds (step cfg s e).1
      unfold queueIds
      rw [hq]
      simp
    · have := countP_ids_pos hin
      omega

/-! ### Worker-count bounds -/

theorem busyCount_le_liveCount (ws : List (Nat × WorkerInfo)) :
    busyCount ws ≤ liveCount ws := by
  unfold busyCount liveCount
  apply List.countP_mono_left
  intro w _ h
  simp only [Bool.and_eq_true] at h
  exact h.1

theorem liveCount_cons_dead (i : Nat) (info : WorkerInfo) (hl : info.live = false)
    (ws : List (Nat × WorkerInfo)) :
    liveCount ((i, info) :: ws) = liveCount ws := by
  rw [liveCount_cons]
  simp [hl]

theorem liveCount_cons_live (i : Nat) (info : WorkerInfo) (hl : info.live = true)
    (ws : List (Nat × WorkerInfo)) :
    liveCount ((i, info) :: ws) = liveCount ws + 1 := by
  rw [liveCount_cons]
  simp [hl]

theorem killAndRespawn_liveCount (cfg : Config) (now wid : Nat) {s : PoolState}
    (hmin : cfg.minWorkers ≤ cfg.maxWorkers)
    (h : liveCount s.workers ≤ cfg.maxWorkers) :
    liveCount (killAndRespawn cfg now wid s).workers ≤ cfg.maxWorkers := by
  unfold killAndRespawn
  split
  · rename_i hcond
    rw [liveCount_spawn]
    simp only [Bool.and_eq_true, decide_eq_true_eq] at hcond
    have h2 := hcond.2
    show liveCount (updateObj wid (fun i => { i with live := false }) s.workers) + 1 ≤
      cfg.maxWorkers
    omega
  · calc liveCount (updateObj wid (fun i => { i with live := false }) s.workers)
        ≤ liveCount s.workers :=
          liveCount_updateObj_le _ (fun i hl => Bool.noConfusion hl) wid s.workers
      _ ≤ cfg.maxWorkers := h

theorem errorCore_liveCount (cfg : Config) (now wid : Nat) {s : PoolState}
    (hmin : cfg.minWorkers ≤ cfg.maxWorkers)
    (h : liveCount s.workers ≤ cfg.maxWorkers) :
    liveCount (handleWorkerErrorCore cfg now wid s).1.workers ≤ cfg.maxWorkers := by
  unfold handleWorkerErrorCore
  cases hl : lookupLive wid s.workers with
  | none => exact h
  | some info =>
    simp only
    cases hct : info.currentTask with
    | none => exact killAndRespawn_liveCount cfg now wid hmin h
    | some tid =>
      simp only
      cases hx : extractTask tid s.taskQueue with
      | none => exact killAndRespawn_liveCount cfg now wid hmin h
      | some p =>
        obtain ⟨task, rest⟩ := p
        exact killAndRespawn_liveCount cfg now wid hmin h

theorem cleanupAux_liveCount_le (cfg : Config) (now : Nat) :
    ∀ (ws : List (Nat × WorkerInfo)) (accLive : Nat),
      liveCount (cleanupAux cfg now accLive ws) ≤ liveCount ws := by
  intro ws
  induction ws with
  | nil => intro acc; exact Nat.le_refl _
  | cons w rest ih =>
    intro acc
    obtain ⟨i, info⟩ := w
    unfold cleanupAux
    by_cases h1 : info.live = true
    · rw [if_pos h1]
      by_cases h2 : (!info.busy && decide (cfg.minWorkers < acc + 1 + liveCount rest)
          && staleCheck cfg now info) = true
      · rw [if_pos h2]
        rw [liveCount_cons_dead _ _ rfl, liveCount_cons_live _ _ h1]
        have := ih acc
        omega
      · rw [if_neg h2]
        rw [liveCount_cons_live _ _ h1, liveCount_cons_live _ _ h1]
        have := ih (acc + 1)
        omega
    · rw [if_neg h1]
      have h1f : info.live = false := by simpa using h1
      rw [liveCount_cons_dead _ _ h1f, liveCount_cons_dead _ _ h1f]
      exact ih acc

theorem liveCount_killAll (ws : List (Nat × WorkerInfo)) :
    liveCount (ws.map (fun w => (w.1, { w.2 with live := false }))) = 0 := by
  induction ws with
  | nil => rfl
  | cons w rest ih =>
    rw [List.map_cons, liveCount_cons]
    simp [ih]

theorem step_liveCount (cfg : Config) (s : PoolState) (e : Event)
    (hmin : cfg.minWorkers ≤ cfg.maxWorkers)
    (h : liveCount s.workers ≤ cfg.maxWorkers) :
    liveCount (step cfg s e).1.workers ≤ cfg.maxWorkers := by
  cases e with
  | exec ty da tmo pri now =>
    show liveCount (execute cfg now ty da tmo pri s).2.workers ≤ cfg.maxWorkers
    unfold execute
    split
    · exact h
    · exact processQueue_liveCount cfg now _ h
  | message wid res now =>
    show liveCount (handleWorkerMessage cfg now wid res s).1.workers ≤ cfg.maxWorkers
    unfold handleWorkerMessage
    cases hl : lookupLive wid s.workers with
    | none => exact h
    | some info =>
      simp only
      cases hx : extractTask res.taskId s.taskQueue with
      | none =>
        exact le_trans (liveCount_updateObj_le
          (fun info => { info with busy := false, currentTask := none, lastActivity := now,
                                   tasksCompleted := info.tasksCompleted + 1 })
          (fun i hl => hl) wid s.workers) h
      | some p =>
        obtain ⟨task, rest⟩ := p
        simp only
        refine processQueue_liveCount cfg now _ ?_
        exact le_trans (liveCount_updateObj_le
          (fun info => { info with busy := false, currentTask := none, lastActivity := now,
                                   tasksCompleted := info.tasksCompleted + 1 })
          (fun i hl => hl) wid s.workers) h
  | workerError wid now =>
    show liveCount (workerErrorStep cfg now wid s).1.workers ≤ cfg.maxWorkers
    rw [workerErrorStep_eq]
    refine processQueue_liveCount cfg now _ ?_
    refine errorCore_liveCount cfg now wid hmin ?_
    exact le_trans (liveCount_updateObj_le
      (fun i => { i with errors := i.errors + 1 }) (fun i hl => hl) wid s.workers) h
  | workerExit wid now =>
    exact killAndRespawn_liveCount cfg now wid hmin h
  | timerFire wid tid =>
    show liveCount (timerFireStep wid tid s).1.workers ≤ cfg.maxWorkers
    unfold timerFireStep
    cases hl : lookupObj wid s.workers with
    | none => exact h
    | some info =>
      simp only
      by_cases hct : info.currentTask = some tid
      · rw [if_pos hct]
        cases hx : extractTask tid s.taskQueue with
        | none =>
          exact le_trans (liveCount_updateObj_le
            (fun i => { i with busy := false, currentTask := none })
            (fun i hl => hl) wid s.workers) h
        | some p =>
          obtain ⟨task, rest⟩ := p
          exact le_trans (liveCount_updateObj_le
            (fun i => { i with busy := false, currentTask := none })
            (fun i hl => hl) wid s.workers) h
      · rw [if_neg hct]
        exact h
  | idleSweep now =>
    calc liveCount (cleanupAux cfg now 0 s.workers) ≤ liveCount s.workers :=
        cleanupAux_liveCount_le cfg now s.workers 0
      _ ≤ cfg.maxWorkers := h
  | shutdownBegin => exact h
  | shutdownFinalize =>
    show liveCount (s.workers.map (fun w => (w.1, { w.2 with live := false }))) ≤ cfg.maxWorkers
    rw [liveCount_killAll]
    omega

/-! ### Idle-sweep lemmas -/

theorem cleanupAux_liveCount_ge (cfg : Config) (now : Nat) :
    ∀ (ws : List (Nat × WorkerInfo)) (accLive : Nat),
      cfg.minWorkers ≤ accLive + liveCount ws →
      cfg.minWorkers ≤ accLive + liveCount (cleanupAux cfg now accLive ws) := by
  intro ws
  induction ws with
  | nil => intro acc h; exact h
  | cons w rest ih =>
    intro acc h
    obtain ⟨i, info⟩ := w
    unfold cleanupAux
    by_cases h1 : info.live = true
    · rw [if_pos h1]
      by_cases h2 : (!info.busy && decide (cfg.minWorkers < acc + 1 + liveCount rest)
          && staleCheck cfg now info) = true
      · rw [if_pos h2]
        rw [liveCount_cons_dead _ _ rfl]
        have hgt : cfg.minWorkers < acc + 1 + liveCount rest := by
          simp only [Bool.and_eq_true, decide_eq_true_eq] at h2
          exact h2.1.2
        have := ih acc (by omega)
        omega
      · rw [if_neg h2]
        rw [liveCount_cons_live _ _ h1]
        rw [liveCount_cons_live _ _ h1] at h
        have := ih (acc + 1) (by omega)
        omega
    · rw [if_neg h1]
      have h1f : info.live = false := by simpa using h1
      rw [liveCount_cons_dead _ _ h1f]
      rw [liveCount_cons_dead _ _ h1f] at h
      exact ih acc h

theorem cleanupAux_entries (cfg : Config) (now : Nat) :
    ∀ (ws : List (Nat × WorkerInfo)) (accLive : Nat),
      List.Forall₂ (fun a b : Nat × WorkerInfo =>
        a.1 = b.1 ∧
        (b.2 = a.2 ∨
          (b.2 = { a.2 with live := false } ∧ a.2.live = true ∧ a.2.busy = false ∧
            staleCheck cfg now a.2 = true)))
        ws (cleanupAux cfg now accLive ws) := by
  intro ws
  induction ws with
  | nil => intro acc; exact List.Forall₂.nil
  | cons w rest ih =>
    intro acc
    obtain ⟨i, info⟩ := w
    unfold cleanupAux
    by_cases h1 : info.live = true
    · rw [if_pos h1]
      by_cases h2 : (!info.busy && decide (cfg.minWorkers < acc + 1 + liveCount rest)
          && staleCheck cfg now info) = true
      · rw [if_pos h2]
        simp only [Bool.and_eq_true, Bool.not_eq_true'] at h2
        exact List.Forall₂.cons ⟨rfl, Or.inr ⟨rfl, h1, h2.1.1, h2.2⟩⟩ (ih acc)
      · rw [if_neg h2]
        exact List.Forall₂.cons ⟨rfl, Or.inl rfl⟩ (ih (acc + 1))
    · rw [if_neg h1]
      exact List.Forall₂.cons ⟨rfl, Or.inl rfl⟩ (ih acc)

/-! ### Shutdown lemmas -/

theorem killAndRespawn_of_shut (cfg : Config) (now wid : Nat) {s : PoolState}
    (h : s.isShuttingDown = true) :
    killAndRespawn cfg now wid s =
      { s with workers := updateObj wid (fun i => { i with live := false }) s.workers } := by
  unfold killAndRespawn
  rw [h]
  simp

theorem cleanupAux_length (cfg : Config) (now : Nat) (ws : List (Nat × WorkerInfo))
    (accLive : Nat) :
    (cleanupAux cfg now accLive ws).length = ws.length := by
  have h := congrArg List.length (cleanupAux_keys cfg now ws accLive)
  simpa using h

theorem errorCore_shut (cfg : Config) (now wid : Nat) {s : PoolState}
    (h : s.isShuttingDown = true) :
    (handleWorkerErrorCore cfg now wid s).1.isShuttingDown = true ∧
    (handleWorkerErrorCore cfg now wid s).1.workers.length = s.workers.length := by
  unfold handleWorkerErrorCore
  cases hl : lookupLive wid s.workers with
  | none => exact ⟨h, rfl⟩
  | some info =>
    simp only
    cases hct : info.currentTask with
    | none =>
      rw [killAndRespawn_of_shut cfg now wid h]
      exact ⟨h, updateObj_length wid _ s.workers⟩
    | some tid =>
      simp only
      cases hx : extractTask tid s.taskQueue with
      | none =>
        rw [killAndRespawn_of_shut cfg now wid h]
        exact ⟨h, updateObj_length wid _ s.workers⟩
      | some p =>
        obtain ⟨task, rest⟩ := p
        simp only
        rw [killAndRespawn_of_shut cfg now wid (show ({ s with taskQueue := rest } : PoolState).isShuttingDown = true from h)]
        exact ⟨h, updateObj_length wid _ s.workers⟩

theorem step_shut (cfg : Config) (s : PoolState) (e : Event) (h : s.isShuttingDown = true) :
    (step cfg s e).1.isShuttingDown = true ∧
    (step cfg s e).1.workers.length = s.workers.length := by
  cases e with
  | exec ty da tmo pri now =>
    show (execute cfg now ty da tmo pri s).2.isShuttingDown = true ∧
      (execute cfg now ty da tmo pri s).2.workers.length = s.workers.length
    unfold execute
    rw [h]
    exact ⟨h, rfl⟩
  | message wid res now =>
    show (handleWorkerMessage cfg now wid res s).1.isShuttingDown = true ∧
      (handleWorkerMessage cfg now wid res s).1.workers.length = s.workers.length
    unfold handleWorkerMessage
    cases hl : lookupLive wid s.workers with
    | none => exact ⟨h, rfl⟩
    | some info =>
      simp only
      cases hx : extractTask res.taskId s.taskQueue with
      | none => exact ⟨h, updateObj_length wid _ s.workers⟩
      | some p =>
        obtain ⟨task, rest⟩ := p
        simp only
        rw [processQueue_of_shut cfg now
          (show ({ s with
              workers := updateObj wid
                (fun info =>
                  { info with busy := false, currentTask := none, lastActivity := now,
                              tasksCompleted := info.tasksCompleted + 1 }) s.workers,
              taskQueue := rest } : PoolState).isShuttingDown = true from h)]
        exact ⟨h, updateObj_length wid _ s.workers⟩
  | workerError wid now =>
    show (workerErrorStep cfg now wid s).1.isShuttingDown = true ∧
      (workerErrorStep cfg now wid s).1.workers.length = s.workers.length
    rw [workerErrorStep_eq]
    have hcore := errorCore_shut cfg now wid
      (show ({ s with workers := updateObj wid (fun i => { i with errors := i.errors + 1 }) s.workers } : PoolState).isShuttingDown = true from h)
    rw [processQueue_of_shut cfg now hcore.1]
    refine ⟨hcore.1, ?_⟩
    rw [hcore.2]
    exact updateObj_length wid _ s.workers
  | workerExit wid now =>
    show (killAndRespawn cfg now wid s).isShuttingDown = true ∧
      (killAndRespawn cfg now wid s).workers.length = s.workers.length
    rw [killAndRespawn_of_shut cfg now wid h]
    exact ⟨h, updateObj_length wid _ s.workers⟩
  | timerFire wid tid =>
    show (timerFireStep wid tid s).1.isShuttingDown = true ∧
      (timerFireStep wid tid s).1.workers.length = s.workers.length
    unfold timerFireStep
    cases hl : lookupObj wid s.workers with
    | none => exact ⟨h, rfl⟩
    | some info =>
      simp only
      by_cases hct : info.currentTask = some tid
      · rw [if_pos hct]
        cases hx : extractTask tid s.taskQueue with
        | none => exact ⟨h, updateObj_length wid _ s.workers⟩
        | some p =>
          obtain ⟨task, rest⟩ := p
          exact ⟨h, updateObj_length wid _ s.workers⟩
      · rw [if_neg hct]
        exact ⟨h, rfl⟩
  | idleSweep now =>
    exact ⟨h, cleanupAux_length cfg now s.workers 0⟩
  | shutdownBegin => exact ⟨rfl, rfl⟩
  | shutdownFinalize =>
    refine ⟨h, ?_⟩
    show ((shutdownFinalizeStep s).1.workers).length = s.workers.length
    unfold shutdownFinalizeStep
    simp

/-! ### Dispatch-order lemmas -/

theorem lookup_unique {ws : List (Nat × WorkerInfo)} {w : Nat × WorkerInfo} {wid : Nat}
    {info : WorkerInfo} (hnd : ws.Pairwise (fun a b => a.1 ≠ b.1)) (hw : w ∈ ws)
    (hkey : w.1 = wid) (hlk : lookupObj wid ws = some info) : w.2 = info := by
  induction ws with
  | nil => exact absurd hw (List.not_mem_nil w)
  | cons x rest ih =>
    obtain ⟨i, xi⟩ := x
    rcases List.pairwise_cons.mp hnd with ⟨hh, hrest⟩
    by_cases hi : i = wid
    · subst hi
      simp only [lookupObj, if_true, Option.some.injEq] at hlk
      rcases List.mem_cons.mp hw with rfl | hw'
      · exact hlk
      · exact absurd hkey.symm (hh w hw')
    · simp only [lookupObj, if_neg hi] at hlk
      rcases List.mem_cons.mp hw with rfl | hw'
      · exact absurd hkey hi
      · exact ih hrest hw' hlk

theorem mem_updateObj_of_ne {ws : List (Nat × WorkerInfo)} {w : Nat × WorkerInfo}
    (hw : w ∈ ws) {wid : Nat} (hne : w.1 ≠ wid) (f : WorkerInfo → WorkerInfo) :
    w ∈ updateObj wid f ws := by
  induction ws with
  | nil => exact absurd hw (List.not_mem_nil w)
  | cons x rest ih =>
    obtain ⟨i, xi⟩ := x
    by_cases hi : i = wid
    · subst hi
      simp only [updateObj, if_pos rfl]
      rcases List.mem_cons.mp hw with rfl | hw'
      · exact absurd rfl hne
      · exact List.mem_cons_of_mem _ hw'
    · simp only [updateObj, if_neg hi]
      rcases List.mem_cons.mp hw with rfl | hw'
      · exact List.mem_cons_self _ _
      · exact List.mem_cons_of_mem _ (ih hw')

theorem isAssigned_of_holder {ws : List (Nat × WorkerInfo)} {tid : Nat}
    (h : ∃ w ∈ ws, w.2.live = true ∧ w.2.busy = true ∧ w.2.currentTask = some tid) :
    isAssigned ws tid = true := by
  obtain ⟨w, hw, h1, _, h3⟩ := h
  unfold isAssigned
  rw [List.any_eq_true]
  exact ⟨w, hw, by simp [h1, h3]⟩

theorem holder_assign {ws : List (Nat × WorkerInfo)} {n wid tid tid' now : Nat}
    (hnd : WFworkers ws n) (hav : getAvailableWorker ws = some wid)
    (h : ∃ w ∈ ws, w.2.live = true ∧ w.2.busy = true ∧ w.2.currentTask = some tid) :
    ∃ w ∈ assignTask now wid tid' ws,
      w.2.live = true ∧ w.2.busy = true ∧ w.2.currentTask = some tid := by
  obtain ⟨w, hw, h1, h2, h3⟩ := h
  obtain ⟨info, hlk, hlive, hbusy⟩ := getAvailableWorker_some hnd.1 hav
  have hne : w.1 ≠ wid := by
    intro he
    have h4 : w.2 = info := lookup_unique hnd.1 hw he hlk
    rw [h4] at h2
    rw [h2] at hbusy
    exact Bool.noConfusion hbusy
  exact ⟨w, mem_updateObj_of_ne hw hne _, h1, h2, h3⟩

theorem dispatchLoop_cons_avail {cfg : Config} {now : Nat} {t : Task} {rest : List Task}
    {s : PoolState} {wid : Nat} (hav : getAvailableWorker s.workers = some wid) :
    dispatchLoop cfg now (t :: rest) s =
      dispatchLoop cfg now rest { s with workers := assignTask now wid t.id s.workers } := by
  rw [dispatchLoop, hav]

theorem dispatchLoop_cons_spawn {cfg : Config} {now : Nat} {t : Task} {rest : List Task}
    {s : PoolState} {wid : Nat} (hav : getAvailableWorker s.workers = none)
    (hm : liveCount s.workers < cfg.maxWorkers)
    (hav2 : getAvailableWorker (spawnWorker now s).workers = some wid) :
    dispatchLoop cfg now (t :: rest) s =
      dispatchLoop cfg now rest
        { spawnWorker now s with
          workers := assignTask now wid t.id (spawnWorker now s).workers } := by
  rw [dispatchLoop, hav]
  simp only [hm, hav2, if_true]

theorem dispatchLoop_cons_stuck {cfg : Config} {now : Nat} {t : Task} {rest : List Task}
    {s : PoolState} (hav : getAvailableWorker s.workers = none)
    (hm : ¬(liveCount s.workers < cfg.maxWorkers)) :
    dispatchLoop cfg now (t :: rest) s = s := by
  rw [dispatchLoop, hav]
  simp only [hm, if_false]

theorem spawn_avail {now : Nat} {s : PoolState}
    (hav : getAvailableWorker s.workers = none) :
    getAvailableWorker (spawnWorker now s).workers = some s.nextWorkerId := by
  show getAvailableWorker
    (s.workers ++ [(s.nextWorkerId, ⟨true, false, none, 0, 0, now⟩)]) = some s.nextWorkerId
  rw [getAvailableWorker_append_single hav]
  rfl

theorem dispatchLoop_holder (cfg : Config) (now : Nat) (l : List Task) :
    ∀ s : PoolState, WFworkers s.workers s.nextWorkerId → ∀ tid : Nat,
      (∃ w ∈ s.workers, w.2.live = true ∧ w.2.busy = true ∧ w.2.currentTask = some tid) →
      ∃ w ∈ (dispatchLoop cfg now l s).workers,
        w.2.live = true ∧ w.2.busy = true ∧ w.2.currentTask = some tid := by
  induction l with
  | nil => intro s _ tid h; exact h
  | cons t rest ih =>
    intro s hwf tid h
    cases hav : getAvailableWorker s.workers with
    | some wid =>
      rw [dispatchLoop_cons_avail hav]
      exact ih _ (WFworkers_update hwf wid _) tid (holder_assign hwf hav h)
    | none =>
      by_cases hm : liveCount s.workers < cfg.maxWorkers
      · have hav2 := @spawn_avail now _ hav
        rw [dispatchLoop_cons_spawn hav hm hav2]
        have hsp : WFworkers (spawnWorker now s).workers (spawnWorker now s).nextWorkerId :=
          WFworkers_append_fresh hwf _
        have hmem : ∃ w ∈ (spawnWorker now s).workers,
            w.2.live = true ∧ w.2.busy = true ∧ w.2.currentTask = some tid := by
          obtain ⟨w, hw, hh⟩ := h
          exact ⟨w, List.mem_append.mpr (Or.inl hw), hh⟩
        exact ih _ (WFworkers_update hsp _ _) tid (holder_assign hsp hav2 hmem)
      · rw [dispatchLoop_cons_stuck hav hm]
        exact h

theorem dispatchLoop_take (cfg : Config) (now : Nat) (l : List Task) :
    ∀ s : PoolState, WFworkers s.workers s.nextWorkerId →
      ∃ k, dispatchLoop cfg now l s = dispatchLoop cfg now (l.take k) s ∧
        ∀ t ∈ l.take k, isAssigned (dispatchLoop cfg now l s).workers t.id = true := by
  induction l with
  | nil =>
    intro s _
    exact ⟨0, rfl, by intro t ht; exact absurd ht (List.not_mem_nil t)⟩
  | cons t rest ih =>
    intro s hwf
    cases hav : getAvailableWorker s.workers with
    | some wid =>
      rw [dispatchLoop_cons_avail hav]
      obtain ⟨k, hk, hass⟩ :=
        ih { s with workers := assignTask now wid t.id s.workers } (WFworkers_update hwf wid _)
      refine ⟨k + 1, ?_, ?_⟩
      · rw [List.take_succ_cons, dispatchLoop_cons_avail hav]
        exact hk
      · intro x hx
        rw [List.take_succ_cons, List.mem_cons] at hx
        rcases hx with rfl | hx
        · refine isAssigned_of_holder
            (dispatchLoop_holder cfg now rest _ (WFworkers_update hwf wid _) x.id ?_)
          obtain ⟨info, hlk, hlive, hbusy⟩ := getAvailableWorker_some hwf.1 hav
          refine ⟨(wid, { info with busy := true, currentTask := some x.id, lastActivity := now }),
            ?_, hlive, rfl, rfl⟩
          have h2 : lookupObj wid (assignTask now wid x.id s.workers) =
              some { info with busy := true, currentTask := some x.id, lastActivity := now } := by
            unfold assignTask
            rw [lookupObj_updateObj_self, hlk]
            rfl
          exact lookupObj_mem h2
        · exact hass x hx
    | none =>
      by_cases hm : liveCount s.workers < cfg.maxWorkers
      · have hav2 := @spawn_avail now _ hav
        rw [dispatchLoop_cons_spawn hav hm hav2]
        have hsp : WFworkers (spawnWorker now s).workers (spawnWorker now s).nextWorkerId :=
          WFworkers_append_fresh hwf _
        obtain ⟨k, hk, hass⟩ :=
          ih { spawnWorker now s with
                workers := assignTask now s.nextWorkerId t.id (spawnWorker now s).workers }
            (WFworkers_update hsp s.nextWorkerId _)
        refine ⟨k + 1, ?_, ?_⟩
        · rw [List.take_succ_cons, dispatchLoop_cons_spawn hav hm hav2]
          exact hk
        · intro x hx
          rw [List.take_succ_cons, List.mem_cons] at hx
          rcases hx with rfl | hx
          · refine isAssigned_of_holder
              (dispatchLoop_holder cfg now rest _ (WFworkers_update hsp s.nextWorkerId _) x.id ?_)
            obtain ⟨info, hlk, hlive, hbusy⟩ := getAvailableWorker_some hsp.1 hav2
            refine ⟨(s.nextWorkerId,
              { info with busy := true, currentTask := some x.id, lastActivity := now }),
              ?_, hlive, rfl, rfl⟩
            have h2 : lookupObj s.nextWorkerId
                (assignTask now s.nextWorkerId x.id (spawnWorker now s).workers) =
                some { info with busy := true, currentTask := some x.id, lastActivity := now } := by
              unfold assignTask
              rw [lookupObj_updateObj_self, hlk]
              rfl
            exact lookupObj_mem h2
          · exact hass x hx
      · rw [dispatchLoop_cons_stuck hav hm]
        refine ⟨0, rfl, ?_⟩
        intro x hx
        exact absurd hx (List.not_mem_nil x)

/-! ### Initial-state facts and kill counting -/

theorem spawnN_taskQueue (now : Nat) : ∀ (k : Nat) (s : PoolState),
    (spawnN now k s).taskQueue = s.taskQueue := by
  intro k
  induction k with
  | zero => intro s; rfl
  | succ n ih => intro s; exact ih (spawnWorker now s)

theorem spawnN_nextTaskId (now : Nat) : ∀ (k : Nat) (s : PoolState),
    (spawnN now k s).nextTaskId = s.nextTaskId := by
  intro k
  induction k with
  | zero => intro s; rfl
  | succ n ih => intro s; exact ih (spawnWorker now s)

theorem spawnN_shut (now : Nat) : ∀ (k : Nat) (s : PoolState),
    (spawnN now k s).isShuttingDown = s.isShuttingDown := by
  intro k
  induction k with
  | zero => intro s; rfl
  | succ n ih => intro s; exact ih (spawnWorker now s)

theorem spawnN_liveCount (now : Nat) : ∀ (k : Nat) (s : PoolState),
    liveCount (spawnN now k s).workers = liveCount s.workers + k := by
  intro k
  induction k with
  | zero => intro s; rfl
  | succ n ih =>
    intro s
    rw [show spawnN now (n + 1) s = spawnN now n (spawnWorker now s) from rfl, ih,
      liveCount_spawn]
    omega

theorem initState_taskQueue (cfg : Config) (now : Nat) :
    (initState cfg now).taskQueue = [] := spawnN_taskQueue now cfg.minWorkers _

theorem initState_nextTaskId (cfg : Config) (now : Nat) :
    (initState cfg now).nextTaskId = 0 := spawnN_nextTaskId now cfg.minWorkers _

theorem initState_liveCount (cfg : Config) (now : Nat) :
    liveCount (initState cfg now).workers = cfg.minWorkers := by
  unfold initState
  rw [spawnN_liveCount]
  simp [liveCount]

theorem lookupObj_append_left {wid : Nat} {ws : List (Nat × WorkerInfo)} {info : WorkerInfo}
    (h : lookupObj wid ws = some info) (l : List (Nat × WorkerInfo)) :
    lookupObj wid (ws ++ l) = some info := by
  induction ws with
  | nil => exact Option.noConfusion h
  | cons x rest ih =>
    obtain ⟨i, xi⟩ := x
    by_cases hi : i = wid
    · subst hi
      simp only [lookupObj, if_true, Option.some.injEq] at h
      simp [lookupObj, h]
    · simp only [lookupObj, if_neg hi] at h
      simp only [List.cons_append, lookupObj, if_neg hi]
      exact ih h

theorem liveCount_pos_of_live {wid : Nat} {ws : List (Nat × WorkerInfo)} {info : WorkerInfo}
    (hlk : lookupObj wid ws = some info) (hlive : info.live = true) :
    1 ≤ liveCount ws := by
  induction ws with
  | nil => exact Option.noConfusion hlk
  | cons x rest ih =>
    obtain ⟨i, xi⟩ := x
    by_cases hi : i = wid
    · subst hi
      simp only [lookupObj, if_true, Option.some.injEq] at hlk
      subst hlk
      rw [liveCount_cons_live _ _ hlive]
      omega
    · simp only [lookupObj, if_neg hi] at hlk
      rw [liveCount_cons]
      have := ih hlk
      omega

theorem liveCount_kill {wid : Nat} {ws : List (Nat × WorkerInfo)} {info : WorkerInfo}
    (hlk : lookupObj wid ws = some info) (hlive : info.live = true) :
    liveCount (updateObj wid (fun i => { i with live := false }) ws) =
      liveCount ws - 1 := by
  induction ws with
  | nil => exact Option.noConfusion hlk
  | cons x rest ih =>
    obtain ⟨i, xi⟩ := x
    by_cases hi : i = wid
    · subst hi
      simp only [lookupObj, if_true, Option.some.injEq] at hlk
      subst hlk
      simp only [updateObj, if_true]
      rw [liveCount_cons_dead _ _ rfl, liveCount_cons_live _ _ hlive]
      omega
    · simp only [lookupObj, if_neg hi] at hlk
      simp only [updateObj, if_neg hi]
      rw [liveCount_cons, liveCount_cons]
      have h1 := ih hlk
      have h2 := liveCount_pos_of_live hlk hlive
      omega

theorem nodup_ids_middle_pw {l1 l2 : List Task} {t : Task}
    (h : (l1 ++ t :: l2).Pairwise (fun a b => a.id ≠ b.id)) :
    t.id ∉ (l1 ++ l2).map Task.id := by
  rw [List.pairwise_append] at h
  obtain ⟨hp1, hp2, hcross⟩ := h
  rcases List.pairwise_cons.mp hp2 with ⟨ht2, _⟩
  intro hmem
  rw [List.map_append, List.mem_append] at hmem
  rcases hmem with hm | hm
  · obtain ⟨x, hx, he⟩ := List.mem_map.mp hm
    exact (hcross x hx t (List.mem_cons_self _ _)) he
  · obtain ⟨x, hx, he⟩ := List.mem_map.mp hm
    exact (ht2 x hx) he.symm

/-! ### The claims -/

/-- Claim C1: over every event trace of a freshly constructed pool, each
task's future settles at most once — no code path resolves or rejects the
same task's future a second time — and every settlement performed by a
handler removes the settled task from the queue: the settled id is in the
queue before the step and gone after it, so a settlement whose task is no
longer queued is dropped.  Traces range over arbitrary event lists, which
over-approximates the real interleavings; the liveness half of "exactly
once" (that a settlement eventually arrives) is a fairness property
outside this safety model and is what the claim's own elaboration after
the colon spells out. -/
theorem task_settles_at_most_once (cfg : Config) (now0 : Nat) (evts : List Event)
    (e : Event) (i : Nat) :
    countSettle i (run cfg (initState cfg now0) evts).2 ≤ 1 ∧
    (∀ st ∈ (step cfg (run cfg (initState cfg now0) evts).1 e).2,
      st.taskId ∈ queueIds (run cfg (initState cfg now0) evts).1 ∧
      st.taskId ∉ queueIds (step cfg (run cfg (initState cfg now0) evts).1 e).1) := by
  constructor
  · have hb := run_budget cfg evts (initState cfg now0) (initState_WF cfg now0) i
    have hinit : budget i (initState cfg now0) ≤ 1 := by
      unfold budget queueIds
      rw [initState_taskQueue, List.map_nil, if_neg (List.not_mem_nil i)]
      split <;> omega
    omega
  · exact step_settle_mem cfg _ e (run_WF cfg evts _ (initState_WF cfg now0)).1

/-- Concrete instantiation of the C1 theorem: a task is enqueued and then
settled by the shutdown finalizer. -/
theorem task_settles_at_most_once_witness :
    countSettle 0 (run ⟨2, 1, 30000, 60000⟩ (initState ⟨2, 1, 30000, 60000⟩ 0)
        [Event.exec "a" "b" none none 5, Event.shutdownBegin]).2 ≤ 1 ∧
    ((⟨0, Outcome.rejectedShutdown⟩ : Settlement).taskId ∈
        queueIds (run ⟨2, 1, 30000, 60000⟩ (initState ⟨2, 1, 30000, 60000⟩ 0)
          [Event.exec "a" "b" none none 5, Event.shutdownBegin]).1 ∧
      (⟨0, Outcome.rejectedShutdown⟩ : Settlement).taskId ∉
        queueIds (step ⟨2, 1, 30000, 60000⟩
          (run ⟨2, 1, 30000, 60000⟩ (initState ⟨2, 1, 30000, 60000⟩ 0)
            [Event.exec "a" "b" none none 5, Event.shutdownBegin]).1
          Event.shutdownFinalize).1) :=
  ⟨(task_settles_at_most_once ⟨2, 1, 30000, 60000⟩ 0
      [Event.exec "a" "b" none none 5, Event.shutdownBegin] Event.shutdownFinalize 0).1,
   (task_settles_at_most_once ⟨2, 1, 30000, 60000⟩ 0
      [Event.exec "a" "b" none none 5, Event.shutdownBegin] Event.shutdownFinalize 0).2
     ⟨0, Outcome.rejectedShutdown⟩ (by decide)⟩

/-- Claim C2: for a pool whose resolved configuration satisfies
minWorkers ≤ maxWorkers, busyWorkers ≤ totalWorkers holds in every state,
the freshly constructed pool satisfies totalWorkers ≤ maxWorkers, and every
event handler preserves totalWorkers ≤ maxWorkers (the dispatch pass spawns
only while strictly below maxWorkers; exit- and crash-respawn spawn only
while below minWorkers ≤ maxWorkers). -/
theorem pool_size_invariant (cfg : Config) (hmin : cfg.minWorkers ≤ cfg.maxWorkers) :
    (∀ s : PoolState, (getStats s).busyWorkers ≤ (getStats s).totalWorkers) ∧
    (∀ now : Nat, (getStats (initState cfg now)).totalWorkers ≤ cfg.maxWorkers) ∧
    (∀ (s : PoolState) (e : Event), (getStats s).totalWorkers ≤ cfg.maxWorkers →
      (getStats (step cfg s e).1).totalWorkers ≤ cfg.maxWorkers) := by
  refine ⟨fun s => busyCount_le_liveCount s.workers, ?_, ?_⟩
  · intro now
    show liveCount (initState cfg now).workers ≤ cfg.maxWorkers
    rw [initState_liveCount]
    exact hmin
  · intro s e h
    exact step_liveCount cfg s e hmin h

/-- Concrete instantiation of the C2 theorem. -/
theorem pool_size_invariant_witness :
    ((getStats (initState ⟨2, 1, 30000, 60000⟩ 0)).busyWorkers ≤
      (getStats (initState ⟨2, 1, 30000, 60000⟩ 0)).totalWorkers) ∧
    ((getStats (initState ⟨2, 1, 30000, 60000⟩ 0)).totalWorkers ≤ 2) ∧
    ((getStats (step ⟨2, 1, 30000, 60000⟩ (initState ⟨2, 1, 30000, 60000⟩ 0)
        (Event.exec "a" "b" none none 5)).1).totalWorkers ≤ 2) :=
  ⟨(pool_size_invariant ⟨2, 1, 30000, 60000⟩ (by decide)).1 _,
   (pool_size_invariant ⟨2, 1, 30000, 60000⟩ (by decide)).2.1 0,
   (pool_size_invariant ⟨2, 1, 30000, 60000⟩ (by decide)).2.2 _ _
     ((pool_size_invariant ⟨2, 1, 30000, 60000⟩ (by decide)).2.1 0)⟩

/-- Claim C3: `execute` called once the shutting-down flag is set returns
the PoolShuttingDown error together with the state unchanged — literally
the same state, so no task is appended and no worker is spawned. -/
theorem execute_rejects_during_shutdown (cfg : Config) (now : Nat) (ty da : String)
    (tmo : Option Nat) (pri : Option Int) (s : PoolState)
    (h : s.isShuttingDown = true) :
    execute cfg now ty da tmo pri s = (Except.error ExecError.poolShuttingDown, s) := by
  unfold execute
  rw [h]
  simp

/-- Concrete instantiation of the C3 theorem. -/
theorem execute_rejects_during_shutdown_witness :
    execute ⟨2, 1, 30000, 60000⟩ 5 "a" "b" none none
        { workers := [], taskQueue := [], isShuttingDown := true,
          nextWorkerId := 0, nextTaskId := 0 } =
      (Except.error ExecError.poolShuttingDown,
        { workers := [], taskQueue := [], isShuttingDown := true,
          nextWorkerId := 0, nextTaskId := 0 }) :=
  execute_rejects_during_shutdown ⟨2, 1, 30000, 60000⟩ 5 "a" "b" none none _ rfl

/-- Claim C7: the idle sweep kills a worker only if it is idle (not busy)
and stale (last activity more than idleTimeout ago) — every entry is either
left unchanged or flipped to dead under exactly those conditions — and it
preserves totalWorkers ≥ minWorkers. -/
theorem idle_cleanup_preserves_min (cfg : Config) (now : Nat) (s : PoolState) :
    (cfg.minWorkers ≤ liveCount s.workers →
      cfg.minWorkers ≤ liveCount (cleanupIdleWorkers cfg now s).workers) ∧
    List.Forall₂ (fun a b : Nat × WorkerInfo =>
        a.1 = b.1 ∧
        (b.2 = a.2 ∨
          (b.2 = { a.2 with live := false } ∧ a.2.live = true ∧ a.2.busy = false ∧
            staleCheck cfg now a.2 = true)))
      s.workers (cleanupIdleWorkers cfg now s).workers := by
  constructor
  · intro h
    have h2 := cleanupAux_liveCount_ge cfg now s.workers 0 (by simpa using h)
    simpa using h2
  · exact cleanupAux_entries cfg now s.workers 0

/-- Concrete instantiation of the C7 theorem: a single stale idle worker
with minWorkers = 1 is kept. -/
theorem idle_cleanup_preserves_min_witness :
    (1 ≤ liveCount (cleanupIdleWorkers ⟨2, 1, 100, 1000⟩ 500
        { workers := [(0, ⟨true, false, none, 0, 0, 0⟩)], taskQueue := [],
          isShuttingDown := false, nextWorkerId := 1, nextTaskId := 0 }).workers) ∧
    List.Forall₂ (fun a b : Nat × WorkerInfo =>
        a.1 = b.1 ∧
        (b.2 = a.2 ∨
          (b.2 = { a.2 with live := false } ∧ a.2.live = true ∧ a.2.busy = false ∧
            staleCheck ⟨2, 1, 100, 1000⟩ 500 a.2 = true)))
      [(0, ⟨true, false, none, 0, 0, 0⟩)]
      (cleanupIdleWorkers ⟨2, 1, 100, 1000⟩ 500
        { workers := [(0, ⟨true, false, none, 0, 0, 0⟩)], taskQueue := [],
          isShuttingDown := false, nextWorkerId := 1, nextTaskId := 0 }).workers :=
  ⟨(idle_cleanup_preserves_min ⟨2, 1, 100, 1000⟩ 500
      { workers := [(0, ⟨true, false, none, 0, 0, 0⟩)], taskQueue := [],
        isShuttingDown := false, nextWorkerId := 1, nextTaskId := 0 }).1 (by decide),
   (idle_cleanup_preserves_min ⟨2, 1, 100, 1000⟩ 500
      { workers := [(0, ⟨true, false, none, 0, 0, 0⟩)], taskQueue := [],
        isShuttingDown := false, nextWorkerId := 1, nextTaskId := 0 }).2⟩

/-- Claim C8: the tail of `shutdown` rejects every task still queued with
the shutdown error, clears the queue, and terminates every live worker;
the first statement of `shutdown` sets the shutting-down flag; and once
that flag is set no event handler ever spawns a worker (the worker list
keeps its length, spawning being the only operation that extends it) nor
unsets the flag.  The drain-polling loop between the two phases is real
time; its effect is modelled by the arbitrary events that may run between
`shutdownBegin` and `shutdownFinalize`. -/
theorem shutdown_finalize_and_no_spawn (cfg : Config) (s : PoolState) (e : Event) :
    ((shutdownFinalizeStep s).2 =
        s.taskQueue.map (fun t => Settlement.mk t.id Outcome.rejectedShutdown) ∧
      (shutdownFinalizeStep s).1.taskQueue = [] ∧
      liveCount (shutdownFinalizeStep s).1.workers = 0) ∧
    (s.isShuttingDown = true →
      (step cfg s e).1.isShuttingDown = true ∧
      (step cfg s e).1.workers.length = s.workers.length) ∧
    (shutdownBeginStep s).isShuttingDown = true := by
  refine ⟨⟨rfl, rfl, ?_⟩, step_shut cfg s e, rfl⟩
  exact liveCount_killAll s.workers

/-- Concrete instantiation of the C8 theorem on a shutting-down pool with
one queued task and a pending `execute` event. -/
theorem shutdown_finalize_and_no_spawn_witness :
    ((shutdownFinalizeStep
        { workers := [(0, ⟨true, false, none, 0, 0, 0⟩)],
          taskQueue := [⟨0, "a", "b", none, none⟩], isShuttingDown := true,
          nextWorkerId := 1, nextTaskId := 1 }).2 =
      [⟨0, Outcome.rejectedShutdown⟩] ∧
      (shutdownFinalizeStep
        { workers := [(0, ⟨true, false, none, 0, 0, 0⟩)],
          taskQueue := [⟨0, "a", "b", none, none⟩], isShuttingDown := true,
          nextWorkerId := 1, nextTaskId := 1 }).1.taskQueue = [] ∧
      liveCount (shutdownFinalizeStep
        { workers := [(0, ⟨true, false, none, 0, 0, 0⟩)],
          taskQueue := [⟨0, "a", "b", none, none⟩], isShuttingDown := true,
          nextWorkerId := 1, nextTaskId := 1 }).1.workers = 0) ∧
    ((step ⟨2, 1, 30000, 60000⟩
        { workers := [(0, ⟨true, false, none, 0, 0, 0⟩)],
          taskQueue := [⟨0, "a", "b", none, none⟩], isShuttingDown := true,
          nextWorkerId := 1, nextTaskId := 1 } (Event.exec "c" "d" none none 9)).1.isShuttingDown = true ∧
      (step ⟨2, 1, 30000, 60000⟩
        { workers := [(0, ⟨true, false, none, 0, 0, 0⟩)],
          taskQueue := [⟨0, "a", "b", none, none⟩], isShuttingDown := true,
          nextWorkerId := 1, nextTaskId := 1 } (Event.exec "c" "d" none none 9)).1.workers.length = 1) :=
  ⟨(shutdown_finalize_and_no_spawn ⟨2, 1, 30000, 60000⟩ _ (Event.exec "c" "d" none none 9)).1,
   (shutdown_finalize_and_no_spawn ⟨2, 1, 30000, 60000⟩ _ (Event.exec "c" "d" none none 9)).2.1 rfl⟩

/-- Claim C9 as stated is false: with 8 CPUs and an explicit
maxWorkers = 2, the constructor defaults minWorkers to max 1 (8 / 2) = 4 —
half the CPU count — not max 1 (2 / 2) = 1, half the configured maximum. -/
theorem min_workers_default_counterexample :
    (resolveConfig ⟨some 2, none, none, none⟩ 8).maxWorkers = 2 ∧
    (resolveConfig ⟨some 2, none, none, none⟩ 8).minWorkers = 4 ∧
    max 1 ((resolveConfig ⟨some 2, none, none, none⟩ 8).maxWorkers / 2) = 1 ∧
    (4 : Nat) ≠ 1 := by
  decide

/-- Claim C9 (amended): each omitted field independently defaults to:
maxWorkers = the CPU count, minWorkers = max 1 (cpu count / 2) — half the
available parallelism, not half the configured maxWorkers — idleTimeout =
30000 ms, taskTimeout = 60000 ms. -/
theorem config_defaults (opts : PoolOptions) (numCpus : Nat) :
    (opts.maxWorkers = none → (resolveConfig opts numCpus).maxWorkers = numCpus) ∧
    (opts.minWorkers = none →
      (resolveConfig opts numCpus).minWorkers = max 1 (numCpus / 2)) ∧
    (opts.idleTimeout = none → (resolveConfig opts numCpus).idleTimeout = 30000) ∧
    (opts.taskTimeout = none → (resolveConfig opts numCpus).taskTimeout = 60000) := by
  refine ⟨?_, ?_, ?_, ?_⟩ <;> intro h <;> simp [resolveConfig, natOr, h]

/-- Concrete instantiation of the C9 (amended) theorem. -/
theorem config_defaults_witness :
    (resolveConfig ⟨none, none, none, none⟩ 8).maxWorkers = 8 ∧
    (resolveConfig ⟨none, none, none, none⟩ 8).minWorkers = max 1 (8 / 2) ∧
    (resolveConfig ⟨none, none, none, none⟩ 8).idleTimeout = 30000 ∧
    (resolveConfig ⟨none, none, none, none⟩ 8).taskTimeout = 60000 :=
  ⟨(config_defaults ⟨none, none, none, none⟩ 8).1 rfl,
   (config_defaults ⟨none, none, none, none⟩ 8).2.1 rfl,
   (config_defaults ⟨none, none, none, none⟩ 8).2.2.1 rfl,
   (config_defaults ⟨none, none, none, none⟩ 8).2.2.2 rfl⟩

/-- Claim C10: a task stays in the queue from enqueue until its future is
settled — dispatch only permutes the queue, so assigned (in-flight) tasks
remain queued — `getStats().queuedTasks` is the queue length and therefore
counts in-flight tasks, and on every event a queued task id stays in the
queue exactly when that event settles nothing for it (the drain loop of
`shutdown`, which polls the queue length, therefore waits for in-flight
tasks too). -/
theorem task_queued_until_settled (cfg : Config) (now0 now : Nat) (evts : List Event)
    (e : Event) (i : Nat) :
    (∀ s : PoolState, (getStats s).queuedTasks = s.taskQueue.length) ∧
    (processQueue cfg now (run cfg (initState cfg now0) evts).1).taskQueue.Perm
      (run cfg (initState cfg now0) evts).1.taskQueue ∧
    (i ∈ queueIds (run cfg (initState cfg now0) evts).1 →
      (i ∈ queueIds (step cfg (run cfg (initState cfg now0) evts).1 e).1 ↔
        countSettle i (step cfg (run cfg (initState cfg now0) evts).1 e).2 = 0)) := by
  refine ⟨fun s => rfl, processQueue_perm cfg now _, ?_⟩
  intro hin
  exact step_mem_iff cfg _ e (run_WF cfg evts _ (initState_WF cfg now0)).1 i hin

/-- Concrete instantiation of the C10 theorem: the enqueued task is still
queued while assigned, and survives a timer event for a foreign task id. -/
theorem task_queued_until_settled_witness :
    ((getStats (initState ⟨2, 1, 30000, 60000⟩ 0)).queuedTasks =
      (initState ⟨2, 1, 30000, 60000⟩ 0).taskQueue.length) ∧
    (processQueue ⟨2, 1, 30000, 60000⟩ 7
        (run ⟨2, 1, 30000, 60000⟩ (initState ⟨2, 1, 30000, 60000⟩ 0)
          [Event.exec "a" "b" none none 5]).1).taskQueue.Perm
      (run ⟨2, 1, 30000, 60000⟩ (initState ⟨2, 1, 30000, 60000⟩ 0)
        [Event.exec "a" "b" none none 5]).1.taskQueue ∧
    (0 ∈ queueIds (step ⟨2, 1, 30000, 60000⟩
        (run ⟨2, 1, 30000, 60000⟩ (initState ⟨2, 1, 30000, 60000⟩ 0)
          [Event.exec "a" "b" none none 5]).1 (Event.timerFire 9 9)).1 ↔
      countSettle 0 (step ⟨2, 1, 30000, 60000⟩
        (run ⟨2, 1, 30000, 60000⟩ (initState ⟨2, 1, 30000, 60000⟩ 0)
          [Event.exec "a" "b" none none 5]).1 (Event.timerFire 9 9)).2 = 0) :=
  ⟨(task_queued_until_settled ⟨2, 1, 30000, 60000⟩ 0 7
      [Event.exec "a" "b" none none 5] (Event.timerFire 9 9) 0).1 _,
   (task_queued_until_settled ⟨2, 1, 30000, 60000⟩ 0 7
      [Event.exec "a" "b" none none 5] (Event.timerFire 9 9) 0).2.1,
   (task_queued_until_settled ⟨2, 1, 30000, 60000⟩ 0 7
      [Event.exec "a" "b" none none 5] (Event.timerFire 9 9) 0).2.2 (by decide)⟩

/-- Claim C4: in a dispatch pass over a well-formed state, the pending
(unassigned) tasks are considered sorted by priority descending with ties
in submission order (ids come from a counter incremented at submission,
so id order is submission order); the pass dispatches exactly a prefix of
that pending list — tasks past the point where no worker was available
and none could be spawned are not dispatched — and the queue itself is
only permuted, so nothing is dispatched out of turn or dropped. -/
theorem dispatch_priority_order (cfg : Config) (now : Nat) (s : PoolState)
    (hwf : WF s) :
    (processQueue cfg now s).taskQueue.Perm s.taskQueue ∧
    ((sortByPriority s.taskQueue).filter
        (fun t => !(isAssigned s.workers t.id))).Pairwise taskBefore ∧
    (s.taskQueue ≠ [] → s.isShuttingDown = false →
      ∃ k, processQueue cfg now s =
          dispatchLoop cfg now
            (((sortByPriority s.taskQueue).filter
              (fun t => !(isAssigned s.workers t.id))).take k)
            { s with taskQueue := sortByPriority s.taskQueue } ∧
        ∀ t ∈ ((sortByPriority s.taskQueue).filter
            (fun t => !(isAssigned s.workers t.id))).take k,
          isAssigned (processQueue cfg now s).workers t.id = true) := by
  refine ⟨processQueue_perm cfg now s, ?_, ?_⟩
  · exact (sortByPriority_pairwise hwf.1.2.2).filter _
  · intro hne hsd
    have hstep : processQueue cfg now s =
        dispatchLoop cfg now
          ((sortByPriority s.taskQueue).filter (fun t => !(isAssigned s.workers t.id)))
          { s with taskQueue := sortByPriority s.taskQueue } := by
      unfold processQueue
      rw [if_neg hne, hsd]
      simp only [Bool.false_eq_true, if_false]
    obtain ⟨k, hk, hass⟩ := dispatchLoop_take cfg now
      ((sortByPriority s.taskQueue).filter (fun t => !(isAssigned s.workers t.id)))
      { s with taskQueue := sortByPriority s.taskQueue } hwf.2
    refine ⟨k, hstep.trans hk, ?_⟩
    intro t ht
    rw [hstep]
    exact hass t ht

/-- Concrete instantiation of the C4 theorem: two tasks of priorities 1
and 5 over a single idle worker. -/
theorem dispatch_priority_order_witness :
    ∃ k, processQueue ⟨1, 1, 100, 1000⟩ 7
        { workers := [(0, ⟨true, false, none, 0, 0, 0⟩)],
          taskQueue := [⟨0, "a", "x", none, some 1⟩, ⟨1, "b", "y", none, some 5⟩],
          isShuttingDown := false, nextWorkerId := 1, nextTaskId := 2 } =
      dispatchLoop ⟨1, 1, 100, 1000⟩ 7
        (((sortByPriority [⟨0, "a", "x", none, some 1⟩, ⟨1, "b", "y", none, some 5⟩]).filter
          (fun t => !(isAssigned [(0, ⟨true, false, none, 0, 0, 0⟩)] t.id))).take k)
        { workers := [(0, ⟨true, false, none, 0, 0, 0⟩)],
          taskQueue := sortByPriority [⟨0, "a", "x", none, some 1⟩, ⟨1, "b", "y", none, some 5⟩],
          isShuttingDown := false, nextWorkerId := 1, nextTaskId := 2 } ∧
      ∀ t ∈ ((sortByPriority [⟨0, "a", "x", none, some 1⟩, ⟨1, "b", "y", none, some 5⟩]).filter
          (fun t => !(isAssigned [(0, ⟨true, false, none, 0, 0, 0⟩)] t.id))).take k,
        isAssigned (processQueue ⟨1, 1, 100, 1000⟩ 7
          { workers := [(0, ⟨true, false, none, 0, 0, 0⟩)],
            taskQueue := [⟨0, "a", "x", none, some 1⟩, ⟨1, "b", "y", none, some 5⟩],
            isShuttingDown := false, nextWorkerId := 1, nextTaskId := 2 }).workers t.id = true :=
  (dispatch_priority_order ⟨1, 1, 100, 1000⟩ 7
    { workers := [(0, ⟨true, false, none, 0, 0, 0⟩)],
      taskQueue := [⟨0, "a", "x", none, some 1⟩, ⟨1, "b", "y", none, some 5⟩],
      isShuttingDown := false, nextWorkerId := 1, nextTaskId := 2 }
    (by decide)).2.2 (by decide) rfl

/-- Claim C5: when the timeout timer fires while the captured worker
object's current-task field still names the queued task, the task is
removed from the queue and rejected with TaskTimeout, and that worker's
busy flag and current-task field are reset to idle; furthermore a
completion message for a task id that is no longer in the queue is
dropped without settling any future. -/
theorem timeout_rejects_and_frees (cfg : Config) (now wid tid wid2 : Nat)
    (s s2 : PoolState) (info : WorkerInfo) (res : WorkerResult)
    (hlk : lookupObj wid s.workers = some info)
    (hct : info.currentTask = some tid)
    (hq : tid ∈ queueIds s)
    (hnd : s.taskQueue.Pairwise (fun a b => a.id ≠ b.id))
    (hres : res.taskId ∉ queueIds s2) :
    (timerFireStep wid tid s).2 = [Settlement.mk tid Outcome.rejectedTimeout] ∧
    tid ∉ queueIds (timerFireStep wid tid s).1 ∧
    (∃ info2, lookupObj wid (timerFireStep wid tid s).1.workers = some info2 ∧
      info2.busy = false ∧ info2.currentTask = none) ∧
    (handleWorkerMessage cfg now wid2 res s2).2 = [] := by
  obtain ⟨t, rest, hx⟩ := extractTask_of_mem hq
  obtain ⟨hid, l1, l2, hq2, hr⟩ := extractTask_some_spec hx
  have hstep : timerFireStep wid tid s =
      (({ s with
            taskQueue := rest
            workers := updateObj wid
              (fun i => { i with busy := false, currentTask := none }) s.workers } : PoolState),
       [Settlement.mk t.id Outcome.rejectedTimeout]) := by
    unfold timerFireStep
    rw [hlk]
    simp only
    rw [if_pos hct, hx]
  refine ⟨?_, ?_, ?_, ?_⟩
  · rw [hstep, hid]
  · rw [hstep]
    show tid ∉ rest.map Task.id
    rw [hr, ← hid]
    exact nodup_ids_middle_pw (hq2 ▸ hnd)
  · rw [hstep]
    refine ⟨{ info with busy := false, currentTask := none }, ?_, rfl, rfl⟩
    show lookupObj wid (updateObj wid
      (fun i => { i with busy := false, currentTask := none }) s.workers) = _
    rw [lookupObj_updateObj_self, hlk]
    rfl
  · unfold handleWorkerMessage
    cases hl2 : lookupLive wid2 s2.workers with
    | none => rfl
    | some _ =>
      simp only
      rw [(extractTask_none_iff res.taskId s2.taskQueue).mpr hres]

/-- Concrete instantiation of the C5 theorem: a single worker holding the
single queued task times out; a stray completion for an absent id on an
empty pool settles nothing. -/
theorem timeout_rejects_and_frees_witness :
    (timerFireStep 0 0
        { workers := [(0, ⟨true, true, some 0, 0, 0, 0⟩)],
          taskQueue := [⟨0, "a", "x", none, none⟩], isShuttingDown := false,
          nextWorkerId := 1, nextTaskId := 1 }).2 =
      [Settlement.mk 0 Outcome.rejectedTimeout] ∧
    0 ∉ queueIds (timerFireStep 0 0
        { workers := [(0, ⟨true, true, some 0, 0, 0, 0⟩)],
          taskQueue := [⟨0, "a", "x", none, none⟩], isShuttingDown := false,
          nextWorkerId := 1, nextTaskId := 1 }).1 ∧
    (∃ info2, lookupObj 0 (timerFireStep 0 0
        { workers := [(0, ⟨true, true, some 0, 0, 0, 0⟩)],
          taskQueue := [⟨0, "a", "x", none, none⟩], isShuttingDown := false,
          nextWorkerId := 1, nextTaskId := 1 }).1.workers = some info2 ∧
      info2.busy = false ∧ info2.currentTask = none) ∧
    (handleWorkerMessage ⟨2, 1, 30000, 60000⟩ 9 5 ⟨3, true, none, none⟩
        { workers := [], taskQueue := [], isShuttingDown := false,
          nextWorkerId := 0, nextTaskId := 0 }).2 = [] :=
  timeout_rejects_and_frees ⟨2, 1, 30000, 60000⟩ 9 0 0 5
    { workers := [(0, ⟨true, true, some 0, 0, 0, 0⟩)],
      taskQueue := [⟨0, "a", "x", none, none⟩], isShuttingDown := false,
      nextWorkerId := 1, nextTaskId := 1 }
    { workers := [], taskQueue := [], isShuttingDown := false,
      nextWorkerId := 0, nextTaskId := 0 }
    ⟨true, true, some 0, 0, 0, 0⟩ ⟨3, true, none, none⟩
    (by decide) (by decide) (by decide) (by decide) (by decide)

theorem killAndRespawn_spec (cfg : Config) (now wid : Nat) (s : PoolState)
    (info : WorkerInfo) (hlk : lookupObj wid s.workers = some info)
    (hlive : info.live = true) :
    (killAndRespawn cfg now wid s).taskQueue = s.taskQueue ∧
    lookupLive wid (killAndRespawn cfg now wid s).workers = none ∧
    liveCount (killAndRespawn cfg now wid s).workers = (liveCount s.workers - 1) +
      (if s.isShuttingDown = false ∧ liveCount s.workers - 1 < cfg.minWorkers then 1 else 0) ∧
    (killAndRespawn cfg now wid s).workers.length = s.workers.length +
      (if s.isShuttingDown = false ∧ liveCount s.workers - 1 < cfg.minWorkers then 1 else 0) := by
  have hdead : lookupObj wid (updateObj wid (fun i => { i with live := false }) s.workers) =
      some { info with live := false } := by
    rw [lookupObj_updateObj_self, hlk]
    rfl
  have hkl : liveCount (updateObj wid (fun i => { i with live := false }) s.workers) =
      liveCount s.workers - 1 := liveCount_kill hlk hlive
  have hlen : (updateObj wid (fun i => { i with live := false }) s.workers).length =
      s.workers.length := updateObj_length wid _ s.workers
  unfold killAndRespawn
  by_cases hbool : (!s.isShuttingDown && decide (liveCount
      (updateObj wid (fun i => { i with live := false }) s.workers) < cfg.minWorkers)) = true
  · rw [if_pos hbool]
    simp only [Bool.and_eq_true, Bool.not_eq_true', decide_eq_true_eq] at hbool
    have hP : s.isShuttingDown = false ∧ liveCount s.workers - 1 < cfg.minWorkers :=
      ⟨hbool.1, hkl ▸ hbool.2⟩
    refine ⟨rfl, ?_, ?_, ?_⟩
    · show lookupLive wid ((updateObj wid (fun i => { i with live := false }) s.workers) ++
        [((s.nextWorkerId, ⟨true, false, none, 0, 0, now⟩) : Nat × WorkerInfo)]) = none
      unfold lookupLive
      rw [lookupObj_append_left hdead]
      rfl
    · show liveCount ((updateObj wid (fun i => { i with live := false }) s.workers) ++
        [((s.nextWorkerId, ⟨true, false, none, 0, 0, now⟩) : Nat × WorkerInfo)]) =
        (liveCount s.workers - 1) +
          (if s.isShuttingDown = false ∧ liveCount s.workers - 1 < cfg.minWorkers then 1 else 0)
      rw [liveCount_append, hkl, if_pos hP]
      simp [liveCount, List.countP_cons]
    · show ((updateObj wid (fun i => { i with live := false }) s.workers) ++
        [((s.nextWorkerId, ⟨true, false, none, 0, 0, now⟩) : Nat × WorkerInfo)]).length =
        s.workers.length +
          (if s.isShuttingDown = false ∧ liveCount s.workers - 1 < cfg.minWorkers then 1 else 0)
      rw [List.length_append, hlen, if_pos hP]
      rfl
  · rw [if_neg hbool]
    have hQ : ¬(s.isShuttingDown = false ∧ liveCount s.workers - 1 < cfg.minWorkers) := by
      intro hpq
      apply hbool
      simp only [Bool.and_eq_true, Bool.not_eq_true', decide_eq_true_eq]
      exact ⟨hpq.1, hkl.symm ▸ hpq.2⟩
    refine ⟨rfl, ?_, ?_, ?_⟩
    · show lookupLive wid (updateObj wid (fun i => { i with live := false }) s.workers) = none
      unfold lookupLive
      rw [hdead]
      rfl
    · show liveCount (updateObj wid (fun i => { i with live := false }) s.workers) =
        (liveCount s.workers - 1) +
          (if s.isShuttingDown = false ∧ liveCount s.workers - 1 < cfg.minWorkers then 1 else 0)
      rw [hkl, if_neg hQ]
      rfl
    · show (updateObj wid (fun i => { i with live := false }) s.workers).length =
        s.workers.length +
          (if s.isShuttingDown = false ∧ liveCount s.workers - 1 < cfg.minWorkers then 1 else 0)
      rw [hlen, if_neg hQ]
      rfl

/-- Claim C6: when a worker's execution unit errors while its current-task
field names a still-queued task, that task is removed from the queue and
its future rejected with WorkerCrash; the worker is removed from the live
set; a replacement worker is spawned if and only if the pool is not
shutting down and the live count dropped below minWorkers; and dispatch
(`processQueue`) is re-run on the resulting state. -/
theorem worker_crash_rejects_and_respawns (cfg : Config) (now wid tid : Nat)
    (s : PoolState) (info : WorkerInfo)
    (hlk : lookupObj wid s.workers = some info)
    (hlive : info.live = true)
    (hct : info.currentTask = some tid)
    (hq : tid ∈ queueIds s)
    (hnd : s.taskQueue.Pairwise (fun a b => a.id ≠ b.id)) :
    ∃ s1 : PoolState,
      workerErrorStep cfg now wid s =
        (processQueue cfg now s1, [Settlement.mk tid Outcome.rejectedWorkerCrash]) ∧
      tid ∉ queueIds s1 ∧
      lookupLive wid s1.workers = none ∧
      liveCount s1.workers = (liveCount s.workers - 1) +
        (if s.isShuttingDown = false ∧ liveCount s.workers - 1 < cfg.minWorkers then 1 else 0) ∧
      s1.workers.length = s.workers.length +
        (if s.isShuttingDown = false ∧ liveCount s.workers - 1 < cfg.minWorkers then 1 else 0) := by
  obtain ⟨t, rest, hx⟩ := extractTask_of_mem hq
  obtain ⟨hid, l1, l2, hq2, hr⟩ := extractTask_some_spec hx
  have hlk0 : lookupObj wid (updateObj wid (fun i => { i with errors := i.errors + 1 })
      s.workers) = some { info with errors := info.errors + 1 } := by
    rw [lookupObj_updateObj_self, hlk]
    rfl
  have hll : lookupLive wid (updateObj wid (fun i => { i with errors := i.errors + 1 })
      s.workers) = some { info with errors := info.errors + 1 } := by
    unfold lookupLive
    rw [hlk0]
    simp [hlive]
  have hcore : handleWorkerErrorCore cfg now wid
      { s with workers := updateObj wid (fun i => { i with errors := i.errors + 1 }) s.workers } =
      (killAndRespawn cfg now wid
        { s with
            workers := updateObj wid (fun i => { i with errors := i.errors + 1 }) s.workers
            taskQueue := rest },
       [Settlement.mk t.id Outcome.rejectedWorkerCrash]) := by
    unfold handleWorkerErrorCore
    simp only
    rw [hll]
    simp only
    rw [hct]
    simp only
    rw [hx]
  have hspec := killAndRespawn_spec cfg now wid
    { s with
        workers := updateObj wid (fun i => { i with errors := i.errors + 1 }) s.workers
        taskQueue := rest }
    { info with errors := info.errors + 1 } hlk0 hlive
  have hwork : liveCount ({ s with
      workers := updateObj wid (fun i => { i with errors := i.errors + 1 }) s.workers
      taskQueue := rest } : PoolState).workers = liveCount s.workers :=
    liveCount_updateObj_eq (fun i => { i with errors := i.errors + 1 }) (fun _ => rfl)
      wid s.workers
  have hlen2 : ({ s with
      workers := updateObj wid (fun i => { i with errors := i.errors + 1 }) s.workers
      taskQueue := rest } : PoolState).workers.length = s.workers.length :=
    updateObj_length wid _ s.workers
  have hshut : ({ s with
      workers := updateObj wid (fun i => { i with errors := i.errors + 1 }) s.workers
      taskQueue := rest } : PoolState).isShuttingDown = s.isShuttingDown := rfl
  obtain ⟨hsq, hsl, hsc, hslen⟩ := hspec
  rw [hwork, hshut] at hsc
  rw [hwork, hshut, hlen2] at hslen
  refine ⟨killAndRespawn cfg now wid
    { s with
        workers := updateObj wid (fun i => { i with errors := i.errors + 1 }) s.workers
        taskQueue := rest }, ?_, ?_, hsl, hsc, hslen⟩
  · rw [workerErrorStep_eq, hcore, hid]
  · show tid ∉ (killAndRespawn cfg now wid
      { s with
          workers := updateObj wid (fun i => { i with errors := i.errors + 1 }) s.workers
          taskQueue := rest }).taskQueue.map Task.id
    rw [hsq]
    show tid ∉ rest.map Task.id
    rw [hr, ← hid]
    exact nodup_ids_middle_pw (hq2 ▸ hnd)

/-- Concrete instantiation of the C6 theorem: the only worker crashes
while holding the only queued task; with minWorkers = 1 a replacement is
spawned. -/
theorem worker_crash_rejects_and_respawns_witness :
    ∃ s1 : PoolState,
      workerErrorStep crashDemoCfg 9 0 crashDemoState =
        (processQueue crashDemoCfg 9 s1,
         [Settlement.mk 0 Outcome.rejectedWorkerCrash]) ∧
      0 ∉ queueIds s1 ∧
      lookupLive 0 s1.workers = none ∧
      liveCount s1.workers = (liveCount crashDemoState.workers - 1) +
        (if crashDemoState.isShuttingDown = false ∧
            liveCount crashDemoState.workers - 1 < crashDemoCfg.minWorkers
          then 1 else 0) ∧
      s1.workers.length = crashDemoState.workers.length +
        (if crashDemoState.isShuttingDown = false ∧
            liveCount crashDemoState.workers - 1 < crashDemoCfg.minWorkers
          then 1 else 0) :=
  worker_crash_rejects_and_respawns crashDemoCfg 9 0 0 crashDemoState
    ⟨true, true, some 0, 0, 0, 0⟩
    (by decide) (by decide) (by decide) (by decide) (by decide)

end TailPool
